import Mathlib

/-!
Verification development for the wgslsmith differential-testing core.

The Rust sources are shallowly embedded as Lean definitions:
bytes are `Nat`, byte sequences are `List Nat`, fallible code
(Rust panics / `Result`) becomes `Option` / `Except`, and the
concurrent orchestrator becomes a small-step state machine driven
by an explicit schedule of thread indices.
-/

namespace BufferCheck

/-- Modelled from the spec: resource kinds of `reflection_types::ResourceKind`
(the crate is not part of the sources); the spec distinguishes only
storage-buffer resources from all others. -/
inductive ResourceKind where
  | StorageBuffer
  | Other
deriving DecidableEq

/-- One declared resource of a `PipelineDescription`
(`reflection_types::Resource`, modelled from the spec: a resource kind,
a (group, binding) pair and optional initial data). -/
structure Resource where
  kind : ResourceKind
  group : Nat
  binding : Nat
  init : Option (List Nat)
deriving DecidableEq

/-- Ordered list of declared resources (`reflection_types::PipelineDescription`). -/
structure PipelineDescription where
  resources : List Resource
deriving DecidableEq

/-- Modelled from the spec: `common::Type` is not part of the sources; for a
storage-buffer resource its descriptor exposes an ordered list of
(byte-offset, length) spans marking logically significant bytes
(the `ranges()` method used by `normalize_execution`). -/
structure TypeDesc where
  ranges : List (Nat × Nat)
deriving DecidableEq

/-- Rust slicing `&buffer[offset..offset+size]`: defined when the range lies
within the buffer, a panic (modelled as `none`) otherwise. -/
def sliceRange (buffer : List Nat) (offset size : Nat) : Option (List Nat) :=
  if offset + size ≤ buffer.length then some ((buffer.drop offset).take size) else none

/-- The inner loop of `normalize_execution`: append the bytes of each
(offset, size) span of one buffer, in the order the spans are listed. -/
def extractRanges (buffer : List Nat) : List (Nat × Nat) → Option (List Nat)
  | [] => some []
  | (offset, size) :: rest => do
      let chunk ← sliceRange buffer offset size
      let more ← extractRanges buffer rest
      pure (chunk ++ more)

/-- The iterator chain of `normalize_execution`:
`resources.iter().enumerate().filter(kind == StorageBuffer).enumerate()`,
yielding `(i, (j, resource))` where `i` indexes among storage buffers and
`j` is the declaration index in the full resource list. -/
def storageEnum (resources : List Resource) : List (Nat × Nat × Resource) :=
  (resources.enum.filter fun p => decide (p.2.kind = ResourceKind.StorageBuffer)).enum

/-- The outer loop of `normalize_execution` over the enumerated storage
resources: `buffers[i]` and `type_descs[j]` index into the raw buffers and
the type descriptors (a Rust out-of-bounds panic is `none`). -/
def normGo (buffers : List (List Nat)) (type_descs : List TypeDesc) :
    List (Nat × Nat × Resource) → Option (List Nat)
  | [] => some []
  | (i, j, _) :: rest => do
      let buffer ← buffers[i]?
      let td ← type_descs[j]?
      let bytes ← extractRanges buffer td.ranges
      let more ← normGo buffers type_descs rest
      pure (bytes ++ more)

/-- `buffer_check::normalize_execution`: canonicalize one execution's raw
output buffers into a single byte sequence holding exactly the significant
spans, in declaration order. -/
def normalize_execution (buffers : List (List Nat)) (pipeline_desc : PipelineDescription)
    (type_descs : List TypeDesc) : Option (List Nat) :=
  normGo buffers type_descs (storageEnum pipeline_desc.resources)

/-- The canonical bytes one storage resource contributes: its buffer's
significant spans in descriptor order. -/
def resourceChunk (buffers : List (List Nat)) (type_descs : List TypeDesc)
    (i j : Nat) : Option (List Nat) := do
  let buffer ← buffers[i]?
  let td ← type_descs[j]?
  extractRanges buffer td.ranges

/-- The per-resource canonical chunks of the enumerated storage resources,
each taken in declaration order. -/
def chunksOf (buffers : List (List Nat)) (type_descs : List TypeDesc) :
    List (Nat × Nat × Resource) → Option (List (List Nat))
  | [] => some []
  | p :: rest => do
      let c ← resourceChunk buffers type_descs p.1 p.2.1
      let cs ← chunksOf buffers type_descs rest
      pure (c :: cs)

/-- Normalization as the spec words it: iterate the storage-buffer-kind
resources in declaration order, collect each one's significant spans, and
concatenate everything into one output sequence. -/
def normalizeSpec (buffers : List (List Nat)) (pipeline_desc : PipelineDescription)
    (type_descs : List TypeDesc) : Option (List Nat) :=
  (chunksOf buffers type_descs (storageEnum pipeline_desc.resources)).map List.flatten

/-- The bytes of one declared significant span of the `i`-th storage buffer
(`none` when the buffer is missing or the span exceeds its bounds). -/
def spanView (buffers : List (List Nat)) (i : Nat) (r : Nat × Nat) : Option (List Nat) :=
  buffers[i]? >>= fun buffer => sliceRange buffer r.1 r.2

/-- The declared significant spans of the `j`-th type descriptor (empty when
there is no such descriptor). -/
def tdRanges (type_descs : List TypeDesc) (j : Nat) : List (Nat × Nat) :=
  (type_descs[j]?).elim [] fun td => td.ranges

/-- The loop of `buffer_check::compare`: normalize each remaining execution
and compare it against the previous normalized form, returning `false` on the
first difference. -/
def compareGo (pipeline_desc : PipelineDescription) (type_descs : List TypeDesc) :
    List (List (List Nat)) → List Nat → Option Bool
  | [], _ => some true
  | b :: rest, prev => do
      let current ← normalize_execution b pipeline_desc type_descs
      if current ≠ prev then pure false else compareGo pipeline_desc type_descs rest current

/-- `buffer_check::compare`: `true` when every execution in the sequence
normalizes identically, comparing each entry against its predecessor. -/
def compare (buffers : List (List (List Nat))) (pipeline_desc : PipelineDescription)
    (type_descs : List TypeDesc) : Option Bool :=
  match buffers with
  | [] => some true
  | b :: rest => do
      let first ← normalize_execution b pipeline_desc type_descs
      compareGo pipeline_desc type_descs rest first

end BufferCheck

/-- Whitespace predicate used by Rust's `str::trim` (restricted to the ASCII
whitespace characters relevant here). -/
def isWs (c : Char) : Bool :=
  c = ' ' || c = '\t' || c = '\n' || c = '\r'

/-- Rust `str::trim`: drop leading and trailing whitespace. -/
def trimChars (l : List Char) : List Char :=
  ((l.dropWhile isWs).reverse.dropWhile isWs).reverse

/-- Rust `str::split_once(sep)`: split at the first occurrence of `sep`,
`none` when `sep` does not occur. -/
def splitOnce (sep : Char) : List Char → Option (List Char × List Char)
  | [] => none
  | c :: rest =>
      if c = sep then some ([], rest)
      else (splitOnce sep rest).map fun p => (c :: p.1, p.2)

/-- Rust `str::split(sep)`: n separators yield n + 1 pieces. -/
def splitAll (sep : Char) : List Char → List (List Char)
  | [] => [[]]
  | c :: rest =>
      if c = sep then [] :: splitAll sep rest
      else
        match splitAll sep rest with
        | p :: ps => (c :: p) :: ps
        | [] => [[c]]

/-- Inverse of `splitAll`: interleave the separator between the pieces
(Rust `Vec::join`). -/
def joinSep (sep : Char) : List (List Char) → List Char
  | [] => []
  | [p] => p
  | p :: ps => p ++ sep :: joinSep sep ps

/-- Modelled from the spec: `harness_types::ConfigId` is not part of the
sources; it is an opaque identifier with a canonical string form whose parser
is the exact inverse of its formatter. -/
structure ConfigId where
  canonical : String
deriving DecidableEq

/-- Modelled from the spec: the `ConfigId` parser accepts exactly the
canonical strings (nonempty, no separator or whitespace characters), so that
parsing is the exact inverse of formatting. -/
def ConfigId.parseChars (l : List Char) : Option ConfigId :=
  if l ≠ [] ∧ ∀ c ∈ l, isWs c = false ∧ c ≠ ',' ∧ c ≠ '@' then some ⟨String.mk l⟩ else none

namespace HarnessRunner

/-- `wgslsmith::harness_runner::TargetPath`: an ordered (possibly empty) list
of `ConfigId` plus a harness name. -/
structure TargetPath where
  harness_name : String
  configs : List ConfigId
deriving DecidableEq

/-- The `map(parse).collect::<Result<_,_>>()` step of `TargetPath::from_str`:
trim and parse each comma-separated piece, failing when any piece fails. -/
def parsePieces : List (List Char) → Option (List ConfigId)
  | [] => some []
  | s :: rest => do
      let c ← ConfigId.parseChars (trimChars s)
      let cs ← parsePieces rest
      pure (c :: cs)

/-- `TargetPath::from_str`: split at the first `@` (its absence is a parse
error); an empty configs part yields the empty list, otherwise the part is
split on commas and each trimmed piece is parsed as a `ConfigId`. -/
def TargetPath.parse (arg : String) : Option TargetPath :=
  match splitOnce '@' arg.data with
  | none => none
  | some (config_str, harness_name) =>
      if config_str = [] then some ⟨String.mk harness_name, []⟩
      else
        (parsePieces (splitAll ',' config_str)).map
          fun configs => ⟨String.mk harness_name, configs⟩

/-- `TargetPath`'s `Display` implementation: join the canonical config
strings with commas and append `@` and the harness name. -/
def TargetPath.format (tp : TargetPath) : String :=
  String.mk (joinSep ',' (tp.configs.map fun c => c.canonical.data) ++ '@' :: tp.harness_name.data)

/-- The comma-separated pieces of the configs part of a target string
(before the first `@`). -/
def configPieces (arg : String) : List (List Char) :=
  match splitOnce '@' arg.data with
  | none => []
  | some (config_str, _) => splitAll ',' config_str

/-- `wgslsmith::harness_runner::ConsensusEntry`: a canonical output byte
sequence together with the configs that produced it. -/
structure ConsensusEntry where
  output : List Nat
  configs : List String
deriving DecidableEq

/-- `wgslsmith::harness_runner::ExecutionResult` as declared in
`harness_runner.rs`: the `Success` payload is the consensus output bytes. -/
inductive ExecutionResult where
  | Success (buf : List Nat)
  | Crash (output : String)
  | Mismatch (entries : List ConsensusEntry)
deriving DecidableEq

/-- The line marker recognized by `exec_shader_impl`. -/
def consensusMarker : String := "output-consensus: "

/-- Accumulator of `exec_shader_impl`'s line logger: the free-form output
text and the most recently parsed consensus list. -/
structure LineAcc where
  output : String
  consensus : List ConsensusEntry
deriving DecidableEq

/-- Rust `line.strip_prefix(marker)`: whether the marker's characters lead
the line. -/
def hasMarker (line : String) : Bool :=
  consensusMarker.data.isPrefixOf line.data

/-- The remainder of a line after the consensus marker. -/
def stripMarker (line : String) : String :=
  String.mk (line.data.drop consensusMarker.data.length)

/-- One step of `exec_shader_impl`'s line logger: a line carrying the
consensus marker replaces the consensus list (or records a parse error in the
output text), any other line is appended to the output text. -/
def processLine (parse : String → Except String (List ConsensusEntry))
    (acc : LineAcc) (line : String) : LineAcc :=
  if hasMarker line then
    match parse (stripMarker line) with
    | .ok entries => { acc with consensus := entries }
    | .error e => { acc with output := acc.output ++ "!! Consensus Parse Error: " ++ e ++ "\n" }
  else { acc with output := acc.output ++ line ++ "\n" }

/-- All lines of the child's merged output processed in order, starting from
an empty output text and an empty consensus list. -/
def processLines (parse : String → Except String (List ConsensusEntry))
    (lines : List String) : LineAcc :=
  lines.foldl (processLine parse) ⟨"", []⟩

/-- The exit-code dispatch of `exec_shader_impl`: no exit code or an
unrecognised code is an error; 0 is `Success` with the first consensus
entry's output (empty when there is none); 1 is `Mismatch` with the parsed
entries; 101 is `Crash` with the accumulated output text. -/
def classifyHarnessExit (acc : LineAcc) : Option Nat → Except String ExecutionResult
  | none => .error "failed to get harness exit code"
  | some code =>
      if code = 0 then .ok (.Success ((acc.consensus.head?.map fun e => e.output).getD []))
      else if code = 1 then .ok (.Mismatch acc.consensus)
      else if code = 101 then .ok (.Crash acc.output)
      else .error "harness exited with unrecognised code"

/-- `exec_shader_impl` after the child has been driven: process the output
lines, then classify by exit code. -/
def exec_shader_model (parse : String → Except String (List ConsensusEntry))
    (lines : List String) (code : Option Nat) : Except String ExecutionResult :=
  classifyHarnessExit (processLines parse lines) code

end HarnessRunner

namespace TestCmd

/-- The `ExecutionResult` shape consumed by `test.rs`'s `reduce_mismatch`,
whose `Success` arm matches an optional consensus entry (`e.is_none()` /
`e.unwrap().output`); the snapshot's `harness_runner.rs` declares the
`Success` payload as plain bytes instead, so the two files reflect two
revisions of the same enum. -/
inductive ExecutionResult where
  | Success (entry : Option HarnessRunner.ConsensusEntry)
  | Crash (output : String)
  | Mismatch (entries : List HarnessRunner.ConsensusEntry)
deriving DecidableEq

/-- The scan of `reduce_mismatch` over per-target execution results, carrying
the running first-seen reference output: a `Mismatch` stops the scan as
interesting; a `Success` without payload is skipped; a `Success` payload is
compared against the reference (set on first sight); every other result
(`Crash`) is skipped. -/
def reduceMismatchGo : Option (List Nat) → List ExecutionResult → Bool
  | _, [] => false
  | consensus, r :: rest =>
      match r with
      | .Mismatch _ => true
      | .Success none => reduceMismatchGo consensus rest
      | .Success (some e) =>
          match consensus with
          | some ref => if e.output ≠ ref then true else reduceMismatchGo consensus rest
          | none => reduceMismatchGo (some e.output) rest
      | .Crash _ => reduceMismatchGo consensus rest

/-- The interestingness verdict of `reduce_mismatch` given the ordered
per-target execution results (`mismatch_found` at the end of the loop). -/
def reduce_mismatch_interesting (results : List ExecutionResult) : Bool :=
  reduceMismatchGo none results

/-- The present `Success` payload outputs of a result list, in order. -/
def successOutputs (results : List ExecutionResult) : List (List Nat) :=
  results.filterMap fun r =>
    match r with
    | .Success (some e) => some e.output
    | _ => none

/-- Whether a result is a `Mismatch`. -/
def isMismatchResult : ExecutionResult → Bool
  | .Mismatch _ => true
  | _ => false

end TestCmd

namespace Harness

/-- `frontend::ExecutionEvent` as declared in `printer.rs`: note that the
`Failure` and `Timeout` variants carry no `ConfigId`. -/
inductive ExecutionEvent where
  | UsingDefaultConfigs (configs : List ConfigId)
  | Start (config : ConfigId)
  | Success (config : ConfigId) (buffers : List (List Nat))
  | Failure (stderr : List Nat)
  | Timeout
deriving DecidableEq

/-- Modelled from the spec: `frontend::ExecutionError` is not part of the
sources; following the spec's error taxonomy it covers the missing-defaults
configuration error, process errors (spawn and wait failures), protocol
errors (malformed IPC payloads) and errors signalled by the caller's event
callback. -/
inductive ExecutionError where
  | NoDefaultConfigs
  | Process (msg : String)
  | Protocol (msg : String)
  | Callback (n : Nat)
deriving DecidableEq

/-- What one spawned worker process does: fail to spawn (or to be written to
or waited on), or run for some wall-clock duration and then exit with a code
and the contents of its standard output and error channels. -/
inductive WorkerRun where
  | spawnError (msg : String)
  | runs (duration : Nat) (code : Nat) (stdout : List Nat) (stderr : List Nat)
deriving DecidableEq

/-- The external collaborators and caller inputs `execute` is parameterized
by: the platform default config list, each config's worker behaviour, the
bincode decoder for the worker's `Output` message, and the caller's event
callback (which sees the events delivered so far and may signal an error). -/
structure HarnessEnv where
  defaults : List ConfigId
  behavior : ConfigId → WorkerRun
  decode : List Nat → Option (List (List Nat))
  cb : List ExecutionEvent → ExecutionEvent → Option ExecutionError

/-- What a worker thread does after waiting for the worker it spawned:
end its loop with an error, or deliver one event to the sink. -/
inductive StepOutcome where
  | fail (err : ExecutionError)
  | emit (ev : ExecutionEvent)
deriving DecidableEq

/-- Whether the worker's run outlived the caller-supplied time limit (no
limit means the orchestrator waits however long the worker runs). -/
def timeoutExpired (timeout : Option Nat) (duration : Nat) : Bool :=
  match timeout with
  | some t => decide (t < duration)
  | none => false

/-- Lines 134-175 of `harness/src/lib.rs` for one config: a spawn (or pipe or
wait) failure propagates as an error; an elapsed time limit yields the
`Timeout` event; exit code 0 decodes stdout (a decode failure propagates as
an error) and yields `Success`; any nonzero exit code yields `Failure` with
the stderr bytes. -/
def classifyWorker (decode : List Nat → Option (List (List Nat))) (timeout : Option Nat)
    (config : ConfigId) : WorkerRun → StepOutcome
  | .spawnError msg => .fail (.Process msg)
  | .runs duration code stdout stderr =>
      if timeoutExpired timeout duration then .emit .Timeout
      else if code = 0 then
        match decode stdout with
        | none => .fail (.Protocol "bincode decode")
        | some buffers => .emit (.Success config buffers)
      else .emit (.Failure stderr)

/-- The position of one worker thread in its loop: about to pop a config,
config popped but `Start` not yet delivered, worker running after `Start`,
or finished (with `none` when the shared config iterator was exhausted, or
with the error that ended the loop). -/
inductive ThreadState where
  | idle
  | gotConfig (c : ConfigId)
  | running (c : ConfigId)
  | done (err : Option ExecutionError)
deriving DecidableEq

/-- The shared state of one `execute` call: the mutex-protected config
iterator's remaining configs, the worker threads' positions, the events
delivered to the sink so far (each tagged with the config being processed,
`none` for `UsingDefaultConfigs`), and the callback errors in order of
observation. -/
structure ExecState where
  remaining : List ConfigId
  threads : List ThreadState
  trace : List (Option ConfigId × ExecutionEvent)
  errors : List ExecutionError
deriving DecidableEq

/-- Deliver one event through the mutex-protected sink: the callback sees
the events delivered so far, the event is appended to the trace, and the
callback's verdict is returned. -/
def emitEvent (env : HarnessEnv) (s : ExecState) (c : Option ConfigId)
    (ev : ExecutionEvent) : ExecState × Option ExecutionError :=
  ({ s with trace := s.trace ++ [(c, ev)] }, env.cb (s.trace.map fun p => p.2) ev)

/-- End thread `i`'s loop, recording an observed error in observation
order. -/
def finishThread (s : ExecState) (i : Nat) (err : Option ExecutionError) : ExecState :=
  { s with
    threads := s.threads.set i (.done err)
    errors := match err with | some e => s.errors ++ [e] | none => s.errors }

/-- One atomic action of worker thread `i`: pop a config from the shared
iterator (ending the loop when it is exhausted), deliver `Start`, or wait for
the worker and deliver the terminal event; a callback error ends only this
thread's loop, after the event reached the sink. -/
def stepThread (env : HarnessEnv) (timeout : Option Nat) (s : ExecState) (i : Nat) :
    ExecState :=
  match s.threads[i]? with
  | none => s
  | some .idle =>
      match s.remaining with
      | [] => finishThread s i none
      | c :: rest => { s with remaining := rest, threads := s.threads.set i (.gotConfig c) }
  | some (.gotConfig c) =>
      let pr := emitEvent env s (some c) (.Start c)
      match pr.2 with
      | some e => finishThread pr.1 i (some e)
      | none => { pr.1 with threads := pr.1.threads.set i (.running c) }
  | some (.running c) =>
      match classifyWorker env.decode timeout c (env.behavior c) with
      | .fail err => finishThread s i (some err)
      | .emit ev =>
          let pr := emitEvent env s (some c) ev
          match pr.2 with
          | some e => finishThread pr.1 i (some e)
          | none => { pr.1 with threads := pr.1.threads.set i .idle }
  | some (.done _) => s

/-- Run the worker threads under an explicit schedule of thread indices;
each schedule entry lets one thread take its next atomic action. -/
def runSched (env : HarnessEnv) (timeout : Option Nat) (s : ExecState) :
    List Nat → ExecState
  | [] => s
  | i :: rest => runSched env timeout (stepThread env timeout s i) rest

/-- The error a finished thread's loop ended with, if any. -/
def threadErr : ThreadState → Option ExecutionError
  | .done (some e) => some e
  | _ => none

/-- The `handle.join()?` loop of `execute`: threads are joined in spawn
order and the first error encountered in that order is returned, later ones
are discarded. -/
def joinThreads : List ThreadState → Option ExecutionError
  | [] => none
  | t :: rest =>
      match threadErr t with
      | some e => some e
      | none => joinThreads rest

/-- The worker pool size: `min(parallelism, number of configs)` when a
parallelism bound is given, one thread per config otherwise. -/
def numThreads (parallelism : Option Nat) (n : Nat) : Nat :=
  match parallelism with
  | some p => min p n
  | none => n

/-- The state at the start of the thread pool: all configs remaining, every
thread idle, the trace holding only the events delivered before spawning. -/
def initState (configs : List ConfigId) (n : Nat)
    (trace : List (Option ConfigId × ExecutionEvent)) : ExecState :=
  ⟨configs, List.replicate n .idle, trace, []⟩

/-- The config list the run actually executes: the platform defaults when the
requested list is empty, the requested list otherwise. -/
def effectiveConfigs (env : HarnessEnv) (configs : List ConfigId) : List ConfigId :=
  if configs = [] then env.defaults else configs

/-- The thread-pool phase of `execute`: spawn `min(parallelism, #configs)`
worker threads over the shared config iterator, run them under the given
schedule, and join them in spawn order. -/
def runPhase (env : HarnessEnv) (cfgs : List ConfigId) (timeout : Option Nat)
    (parallelism : Option Nat) (tr0 : List (Option ConfigId × ExecutionEvent))
    (sched : List Nat) : Option ExecutionError × ExecState :=
  let s := runSched env timeout (initState cfgs (numThreads parallelism cfgs.length) tr0)
    sched
  (joinThreads s.threads, s)

/-- `harness::execute`: an empty requested config list substitutes the
platform defaults (failing with `NoDefaultConfigs` before any event or spawn
when they are empty too, and delivering `UsingDefaultConfigs` first
otherwise), then a pool of worker threads drains the shared config iterator
under the given schedule and the threads are joined in spawn order. -/
def execute (env : HarnessEnv) (configs : List ConfigId) (timeout : Option Nat)
    (parallelism : Option Nat) (sched : List Nat) : Option ExecutionError × ExecState :=
  if configs = [] then
    if env.defaults = [] then (some .NoDefaultConfigs, initState [] 0 [])
    else
      match env.cb [] (.UsingDefaultConfigs env.defaults) with
      | some e =>
          (some e, initState env.defaults (numThreads parallelism env.defaults.length)
            [(none, .UsingDefaultConfigs env.defaults)])
      | none =>
          runPhase env env.defaults timeout parallelism
            [(none, .UsingDefaultConfigs env.defaults)] sched
  else runPhase env configs timeout parallelism [] sched

/-- Whether a thread has finished its loop. -/
def isDone : ThreadState → Bool
  | .done _ => true
  | _ => false

/-- All worker threads have finished (the point at which `execute`
returns). -/
@[reducible] def allDone (ts : List ThreadState) : Prop :=
  ts.all isDone = true

/-- The events delivered while processing config `c`, in delivery order. -/
def projTrace (c : ConfigId) (tr : List (Option ConfigId × ExecutionEvent)) :
    List ExecutionEvent :=
  (tr.filter fun p => decide (p.1 = some c)).map fun p => p.2

/-- Whether an event is a terminal classification of one execution. -/
def isTerminalEvent : ExecutionEvent → Bool
  | .Success _ _ => true
  | .Failure _ => true
  | .Timeout => true
  | _ => false

/-- Whether a thread holds config `c` popped but not yet started. -/
def holdsGot (c : ConfigId) : ThreadState → Bool
  | .gotConfig c' => decide (c' = c)
  | _ => false

/-- Whether a thread is running config `c`'s worker. -/
def holdsRun (c : ConfigId) : ThreadState → Bool
  | .running c' => decide (c' = c)
  | _ => false

/-- The events a state's callback sees: the second components of the trace. -/
def events (s : ExecState) : List ExecutionEvent :=
  s.trace.map fun p => p.2

/-- No thread's loop has ended with an error. -/
def errFree (s : ExecState) : Prop :=
  ∀ (i : Nat) (e : ExecutionError), s.threads[i]? ≠ some (ThreadState.done (some e))

/-- The lifecycle of one config under the orchestrator: still in the shared
iterator (nothing delivered); popped by one thread (nothing delivered yet);
started by one thread (exactly its Start delivered); or finished (its Start
and exactly one terminal event delivered, in that order). -/
def PhaseInv (c : ConfigId) (s : ExecState) : Prop :=
  (c ∈ s.remaining ∧ s.threads.countP (holdsGot c) = 0 ∧
    s.threads.countP (holdsRun c) = 0 ∧ projTrace c s.trace = [])
  ∨ (c ∉ s.remaining ∧ s.threads.countP (holdsGot c) = 1 ∧
      s.threads.countP (holdsRun c) = 0 ∧ projTrace c s.trace = [])
  ∨ (c ∉ s.remaining ∧ s.threads.countP (holdsGot c) = 0 ∧
      s.threads.countP (holdsRun c) = 1 ∧ projTrace c s.trace = [.Start c])
  ∨ (c ∉ s.remaining ∧ s.threads.countP (holdsGot c) = 0 ∧
      s.threads.countP (holdsRun c) = 0 ∧
      ∃ t, isTerminalEvent t = true ∧ projTrace c s.trace = [.Start c, t])

/-- The run invariant: the shared iterator holds a suffix of the requested
configs and every requested config is in exactly one lifecycle phase. -/
def SchedInv (cfgs : List ConfigId) (s : ExecState) : Prop :=
  (∃ k, s.remaining = cfgs.drop k) ∧ ∀ c ∈ cfgs, PhaseInv c s

/-- Once some thread has finished by exhausting the shared iterator, no
configs remain to be popped. -/
def DrainInv (s : ExecState) : Prop :=
  (∃ i : Nat, s.threads[i]? = some (ThreadState.done none)) → s.remaining = []

/-- Config-tagged trace entries, pending configs and held configs all
originate from the given config list. -/
def OriginInv (D : List ConfigId) (s : ExecState) : Prop :=
  (∀ c e, ((some c, e) : Option ConfigId × ExecutionEvent) ∈ s.trace → c ∈ D) ∧
  (∀ c ∈ s.remaining, c ∈ D) ∧
  (∀ (i : Nat) (c : ConfigId), s.threads[i]? = some (ThreadState.gotConfig c) ∨
    s.threads[i]? = some (ThreadState.running c) → c ∈ D)

/-- Every error a finished thread ended with was recorded in the observation
log. -/
def ErrLogInv (s : ExecState) : Prop :=
  ∀ (i : Nat) (e : ExecutionError),
    s.threads[i]? = some (ThreadState.done (some e)) → e ∈ s.errors

end Harness

namespace BufferCheck

lemma extractRanges_congr (b1 b2 : List Nat) (ranges : List (Nat × Nat))
    (h : ∀ r ∈ ranges, sliceRange b1 r.1 r.2 = sliceRange b2 r.1 r.2) :
    extractRanges b1 ranges = extractRanges b2 ranges := by
  induction ranges with
  | nil => rfl
  | cons r rest ih =>
      obtain ⟨off, sz⟩ := r
      have h1 : sliceRange b1 off sz = sliceRange b2 off sz := h (off, sz) (by simp)
      have h2 : extractRanges b1 rest = extractRanges b2 rest :=
        ih fun r hr => h r (by simp [hr])
      simp only [extractRanges, h1, h2]

lemma normGo_congr (b1 b2 : List (List Nat)) (tds : List TypeDesc)
    (L : List (Nat × Nat × Resource)) (hlen : b1.length = b2.length)
    (h : ∀ p ∈ L, ∀ r ∈ tdRanges tds p.2.1, spanView b1 p.1 r = spanView b2 p.1 r) :
    normGo b1 tds L = normGo b2 tds L := by
  induction L with
  | nil => rfl
  | cons p rest ih =>
      obtain ⟨i, j, res⟩ := p
      have hrest : normGo b1 tds rest = normGo b2 tds rest :=
        ih fun q hq r hr => h q (by simp [hq]) r hr
      cases hb1 : b1[i]? with
      | none =>
          have hb2 : b2[i]? = none := by
            rw [List.getElem?_eq_none_iff] at hb1 ⊢
            omega
          simp [normGo, hb1, hb2]
      | some buf1 =>
          cases hb2 : b2[i]? with
          | none =>
              exfalso
              rw [List.getElem?_eq_none_iff] at hb2
              have : i < b1.length := (List.getElem?_eq_some_iff.mp hb1).1
              omega
          | some buf2 =>
              cases htd : tds[j]? with
              | none => simp [normGo, hb1, hb2, htd]
              | some td =>
                  have hext : extractRanges buf1 td.ranges = extractRanges buf2 td.ranges := by
                    apply extractRanges_congr
                    intro r hr
                    have hsp := h (i, j, res) (by simp) r (by simp [tdRanges, htd, hr])
                    simpa [spanView, hb1, hb2] using hsp
                  simp [normGo, hb1, hb2, htd, hext, hrest]

lemma normGo_cons (buffers : List (List Nat)) (tds : List TypeDesc) (i j : Nat)
    (res : Resource) (rest : List (Nat × Nat × Resource)) :
    normGo buffers tds ((i, j, res) :: rest)
      = (resourceChunk buffers tds i j).bind fun bytes =>
          (normGo buffers tds rest).map fun more => bytes ++ more := by
  cases hb : buffers[i]? with
  | none => simp [normGo, resourceChunk, hb]
  | some buf =>
      cases ht : tds[j]? with
      | none => simp [normGo, resourceChunk, hb, ht]
      | some td =>
          cases he : extractRanges buf td.ranges with
          | none => simp [normGo, resourceChunk, hb, ht, he]
          | some bytes =>
              cases hn : normGo buffers tds rest with
              | none => simp [normGo, resourceChunk, hb, ht, he, hn]
              | some more => simp [normGo, resourceChunk, hb, ht, he, hn]

lemma normGo_eq_spec (buffers : List (List Nat)) (tds : List TypeDesc)
    (L : List (Nat × Nat × Resource)) :
    normGo buffers tds L = (chunksOf buffers tds L).map List.flatten := by
  induction L with
  | nil => rfl
  | cons p rest ih =>
      obtain ⟨i, j, res⟩ := p
      rw [normGo_cons]
      cases hc : resourceChunk buffers tds i j with
      | none => simp [chunksOf, hc]
      | some bytes =>
          rw [ih]
          cases hm : chunksOf buffers tds rest with
          | none => simp [chunksOf, hc, hm]
          | some chunks => simp [chunksOf, hc, hm]

lemma compareGo_char (pd : PipelineDescription) (tds : List TypeDesc) :
    ∀ (l : List (List (List Nat))) (prev : List Nat),
      (∀ b ∈ l, (normalize_execution b pd tds).isSome = true) →
      (compareGo pd tds l prev = some true ↔
        ∀ b ∈ l, normalize_execution b pd tds = some prev) := by
  intro l
  induction l with
  | nil => intro prev _; simp [compareGo]
  | cons b rest ih =>
      intro prev hall
      obtain ⟨cur, hcur⟩ := Option.isSome_iff_exists.mp (hall b (by simp))
      have hrest : ∀ x ∈ rest, (normalize_execution x pd tds).isSome = true :=
        fun x hx => hall x (by simp [hx])
      by_cases hne : cur = prev
      · subst hne
        have hgo : compareGo pd tds (b :: rest) cur = compareGo pd tds rest cur := by
          simp [compareGo, hcur]
        rw [hgo, ih cur hrest]
        constructor
        · intro hr x hx
          rcases List.mem_cons.mp hx with h | h
          · subst h; exact hcur
          · exact hr x h
        · intro hr x hx
          exact hr x (by simp [hx])
      · have hgo : compareGo pd tds (b :: rest) prev = some false := by
          simp [compareGo, hcur, hne]
        rw [hgo]
        constructor
        · intro hfalse
          exact absurd hfalse (by simp)
        · intro hr
          exfalso
          have hb := hr b (by simp)
          rw [hcur] at hb
          exact hne (by injection hb)

end BufferCheck

/-- C6: `normalize_execution` iterates exactly the storage-buffer resources
in declaration order, appending each one's significant spans in descriptor
order to one growing output sequence (it equals the spec-shaped
`normalizeSpec`); two raw-buffer sets of equal shape that agree on every
declared significant span normalize byte-identically; and repeated calls on
identical inputs yield byte-identical output. -/
theorem normalize_execution_canonical_c6 :
    (∀ (buffers : List (List Nat)) (pd : BufferCheck.PipelineDescription)
        (tds : List BufferCheck.TypeDesc),
      BufferCheck.normalize_execution buffers pd tds = BufferCheck.normalizeSpec buffers pd tds) ∧
    (∀ (b1 b2 : List (List Nat)) (pd : BufferCheck.PipelineDescription)
        (tds : List BufferCheck.TypeDesc),
      b1.length = b2.length →
      (∀ p ∈ BufferCheck.storageEnum pd.resources, ∀ r ∈ BufferCheck.tdRanges tds p.2.1,
        BufferCheck.spanView b1 p.1 r = BufferCheck.spanView b2 p.1 r) →
      BufferCheck.normalize_execution b1 pd tds = BufferCheck.normalize_execution b2 pd tds) ∧
    (∀ (buffers : List (List Nat)) (pd : BufferCheck.PipelineDescription)
        (tds : List BufferCheck.TypeDesc),
      BufferCheck.normalize_execution buffers pd tds
        = BufferCheck.normalize_execution buffers pd tds) := by
  refine ⟨fun buffers pd tds => ?_, fun b1 b2 pd tds hlen h => ?_, fun _ _ _ => rfl⟩
  · exact BufferCheck.normGo_eq_spec buffers tds (BufferCheck.storageEnum pd.resources)
  · exact BufferCheck.normGo_congr b1 b2 tds (BufferCheck.storageEnum pd.resources) hlen h

/-- Witness for C6: a concrete pipeline with one storage buffer and one other
resource, and two raw-buffer sets that differ only outside the declared
significant span, normalize byte-identically. -/
theorem normalize_execution_canonical_c6_witness :
    BufferCheck.normalize_execution [[1, 2, 99, 4]]
        ⟨[⟨BufferCheck.ResourceKind.StorageBuffer, 0, 0, none⟩,
          ⟨BufferCheck.ResourceKind.Other, 0, 1, none⟩]⟩
        [⟨[(0, 2), (3, 1)]⟩, ⟨[(0, 4)]⟩]
      = BufferCheck.normalize_execution [[1, 2, 55, 4]]
        ⟨[⟨BufferCheck.ResourceKind.StorageBuffer, 0, 0, none⟩,
          ⟨BufferCheck.ResourceKind.Other, 0, 1, none⟩]⟩
        [⟨[(0, 2), (3, 1)]⟩, ⟨[(0, 4)]⟩]
    ∧ [[1, 2, 99, 4]] ≠ [[1, 2, 55, 4]] :=
  ⟨normalize_execution_canonical_c6.2.1 [[1, 2, 99, 4]] [[1, 2, 55, 4]]
      ⟨[⟨BufferCheck.ResourceKind.StorageBuffer, 0, 0, none⟩,
        ⟨BufferCheck.ResourceKind.Other, 0, 1, none⟩]⟩
      [⟨[(0, 2), (3, 1)]⟩, ⟨[(0, 4)]⟩] (by decide) (by decide),
    by decide⟩

/-- C7: `compare` returns `true` on an empty or single-element sequence of
executions, and on any sequence whose entries all normalize it returns
`true` exactly when every entry's normalized form equals every other's, the
running predecessor comparison being equivalent to full pairwise equality. -/
theorem compare_all_agree_c7 :
    (∀ (pd : BufferCheck.PipelineDescription) (tds : List BufferCheck.TypeDesc),
      BufferCheck.compare [] pd tds = some true) ∧
    (∀ (b : List (List Nat)) (pd : BufferCheck.PipelineDescription)
        (tds : List BufferCheck.TypeDesc) (n : List Nat),
      BufferCheck.normalize_execution b pd tds = some n →
      BufferCheck.compare [b] pd tds = some true) ∧
    (∀ (l : List (List (List Nat))) (pd : BufferCheck.PipelineDescription)
        (tds : List BufferCheck.TypeDesc),
      (∀ b ∈ l, (BufferCheck.normalize_execution b pd tds).isSome = true) →
      (BufferCheck.compare l pd tds = some true ↔
        ∀ b1 ∈ l, ∀ b2 ∈ l,
          BufferCheck.normalize_execution b1 pd tds
            = BufferCheck.normalize_execution b2 pd tds)) := by
  refine ⟨fun pd tds => rfl, fun b pd tds n hn => ?_, fun l pd tds hall => ?_⟩
  · simp [BufferCheck.compare, hn, BufferCheck.compareGo]
  · cases l with
    | nil => simp [BufferCheck.compare]
    | cons b rest =>
        obtain ⟨n, hn⟩ := Option.isSome_iff_exists.mp (hall b (by simp))
        have hrest : ∀ x ∈ rest, (BufferCheck.normalize_execution x pd tds).isSome = true :=
          fun x hx => hall x (by simp [hx])
        have hchar := BufferCheck.compareGo_char pd tds rest n hrest
        have hcmp : BufferCheck.compare (b :: rest) pd tds
            = BufferCheck.compareGo pd tds rest n := by
          simp [BufferCheck.compare, hn]
        rw [hcmp, hchar]
        constructor
        · intro hr b1 hb1 b2 hb2
          have hv : ∀ x ∈ b :: rest, BufferCheck.normalize_execution x pd tds = some n := by
            intro x hx
            rcases List.mem_cons.mp hx with h | h
            · subst h; exact hn
            · exact hr x h
          rw [hv b1 hb1, hv b2 hb2]
        · intro hr x hx
          have := hr x (by simp [hx]) b (by simp)
          rw [this, hn]

/-- Witness for C7: two concrete executions that normalize identically
compare as agreeing. -/
theorem compare_all_agree_c7_witness :
    BufferCheck.compare [[[7, 8, 0]], [[7, 8, 9]]]
        ⟨[⟨BufferCheck.ResourceKind.StorageBuffer, 0, 0, none⟩]⟩ [⟨[(0, 2)]⟩]
      = some true :=
  (compare_all_agree_c7.2.2 [[[7, 8, 0]], [[7, 8, 9]]]
      ⟨[⟨BufferCheck.ResourceKind.StorageBuffer, 0, 0, none⟩]⟩ [⟨[(0, 2)]⟩]
      (by decide)).mpr (by decide)

lemma string_mk_data (s : String) : String.mk s.data = s := by
  cases s
  rfl

lemma splitOnce_eq_none (sep : Char) (l : List Char) (h : ∀ c ∈ l, c ≠ sep) :
    splitOnce sep l = none := by
  induction l with
  | nil => rfl
  | cons c rest ih =>
      have hc : c ≠ sep := h c (by simp)
      have hrest : splitOnce sep rest = none := ih fun x hx => h x (by simp [hx])
      simp [splitOnce, hc, hrest]

lemma splitOnce_eq_some (sep : Char) (l a b : List Char)
    (h : splitOnce sep l = some (a, b)) : l = a ++ sep :: b := by
  induction l generalizing a b with
  | nil => simp [splitOnce] at h
  | cons c rest ih =>
      by_cases hc : c = sep
      · subst hc
        simp [splitOnce] at h
        obtain ⟨ha, hb⟩ := h
        subst ha; subst hb
        rfl
      · simp only [splitOnce, if_neg hc] at h
        cases hs : splitOnce sep rest with
        | none => rw [hs] at h; simp at h
        | some p =>
            rw [hs] at h
            simp only [Option.map_some'] at h
            have hinj := Option.some.inj h
            have ha : c :: p.1 = a := congrArg Prod.fst hinj
            have hb : p.2 = b := congrArg Prod.snd hinj
            have hrest := ih p.1 p.2 (by rw [hs])
            rw [← ha, ← hb, hrest]
            rfl

lemma splitAll_ne_nil (sep : Char) (l : List Char) : splitAll sep l ≠ [] := by
  induction l with
  | nil => simp [splitAll]
  | cons c rest ih =>
      simp only [splitAll]
      split
      · simp
      · cases h : splitAll sep rest with
        | nil => simp
        | cons p ps => simp

lemma joinSep_splitAll (sep : Char) (l : List Char) :
    joinSep sep (splitAll sep l) = l := by
  induction l with
  | nil => rfl
  | cons c rest ih =>
      by_cases hc : c = sep
      · cases hs : splitAll sep rest with
        | nil => exact absurd hs (splitAll_ne_nil sep rest)
        | cons p ps =>
            rw [hs] at ih
            simp only [splitAll, if_pos hc, hs]
            have hjoin : joinSep sep ([] :: p :: ps) = sep :: joinSep sep (p :: ps) := rfl
            rw [hjoin, ih, hc]
      · cases hs : splitAll sep rest with
        | nil => exact absurd hs (splitAll_ne_nil sep rest)
        | cons p ps =>
            rw [hs] at ih
            simp only [splitAll, if_neg hc, hs]
            cases ps with
            | nil =>
                simp only [joinSep] at ih ⊢
                rw [ih]
            | cons q qs =>
                simp only [joinSep] at ih ⊢
                rw [← ih]
                rfl

lemma parsePieces_canonical (pieces : List (List Char)) (cfgs : List ConfigId)
    (hp : HarnessRunner.parsePieces pieces = some cfgs)
    (ht : ∀ p ∈ pieces, trimChars p = p) :
    cfgs.map (fun c => c.canonical.data) = pieces := by
  induction pieces generalizing cfgs with
  | nil =>
      simp [HarnessRunner.parsePieces] at hp
      subst hp
      rfl
  | cons s rest ih =>
      have hts : trimChars s = s := ht s (by simp)
      simp only [HarnessRunner.parsePieces, hts, Option.bind_eq_bind] at hp
      cases hc : ConfigId.parseChars s with
      | none => rw [hc] at hp; simp at hp
      | some c =>
          rw [hc] at hp
          cases hr : HarnessRunner.parsePieces rest with
          | none => rw [hr] at hp; simp at hp
          | some cs =>
              rw [hr] at hp
              simp at hp
              have hcanon : c.canonical.data = s := by
                simp only [ConfigId.parseChars] at hc
                split at hc
                · cases hc
                  rfl
                · cases hc
              have hrest := ih cs hr fun p hpm => ht p (by simp [hpm])
              rw [← hp]
              simp [hcanon, hrest]

/-- C8: parsing the target string "cfgA,cfgB@local" and then formatting the
result reproduces "cfgA,cfgB@local" exactly; more generally, formatting a
parsed `TargetPath` reproduces the original text whenever that text is in
normalized form (its comma-separated config pieces carry no surrounding
whitespace); and parsing any string that contains no `@` character fails. -/
theorem target_path_roundtrip_c8 :
    ((HarnessRunner.TargetPath.parse "cfgA,cfgB@local").map
        HarnessRunner.TargetPath.format = some "cfgA,cfgB@local") ∧
    (∀ (s : String) (tp : HarnessRunner.TargetPath),
      HarnessRunner.TargetPath.parse s = some tp →
      (∀ p ∈ HarnessRunner.configPieces s, trimChars p = p) →
      HarnessRunner.TargetPath.format tp = s) ∧
    (∀ s : String, (∀ c ∈ s.data, c ≠ '@') →
      HarnessRunner.TargetPath.parse s = none) := by
  refine ⟨by decide, fun s tp hp ht => ?_, fun s h => ?_⟩
  · cases hso : splitOnce '@' s.data with
    | none => simp [HarnessRunner.TargetPath.parse, hso] at hp
    | some pr =>
        obtain ⟨cs, hn⟩ := pr
        simp only [HarnessRunner.TargetPath.parse, hso] at hp
        have hsdata : s.data = cs ++ '@' :: hn := splitOnce_eq_some '@' s.data cs hn hso
        by_cases hcs : cs = []
        · rw [if_pos hcs] at hp
          have htp : tp = ⟨String.mk hn, []⟩ := (Option.some.inj hp).symm
          subst htp
          show HarnessRunner.TargetPath.format ⟨String.mk hn, []⟩ = s
          have hfmt : HarnessRunner.TargetPath.format ⟨String.mk hn, []⟩
              = String.mk ('@' :: hn) := rfl
          rw [hfmt]
          rw [hcs] at hsdata
          rw [← string_mk_data s, hsdata]
          rfl
        · rw [if_neg hcs] at hp
          cases hpp : HarnessRunner.parsePieces (splitAll ',' cs) with
          | none => rw [hpp] at hp; cases hp
          | some cfgs =>
              rw [hpp] at hp
              simp only [Option.map_some'] at hp
              have htp : tp = ⟨String.mk hn, cfgs⟩ := (Option.some.inj hp).symm
              subst htp
              have hpcs : HarnessRunner.configPieces s = splitAll ',' cs := by
                unfold HarnessRunner.configPieces
                rw [hso]
              rw [hpcs] at ht
              have hmap := parsePieces_canonical (splitAll ',' cs) cfgs hpp ht
              show HarnessRunner.TargetPath.format ⟨String.mk hn, cfgs⟩ = s
              unfold HarnessRunner.TargetPath.format
              rw [hmap, joinSep_splitAll]
              show String.mk (cs ++ '@' :: hn) = s
              rw [← hsdata, string_mk_data]
  · have hso : splitOnce '@' s.data = none := splitOnce_eq_none '@' s.data h
    unfold HarnessRunner.TargetPath.parse
    rw [hso]

/-- Witness for C8: formatting the parse of "cfgA,cfgB@local" reproduces it,
and a concrete string without `@` fails to parse. -/
theorem target_path_roundtrip_c8_witness :
    HarnessRunner.TargetPath.format ⟨"local", [⟨"cfgA"⟩, ⟨"cfgB"⟩]⟩ = "cfgA,cfgB@local" ∧
    HarnessRunner.TargetPath.parse "wgpudx12" = none :=
  ⟨target_path_roundtrip_c8.2.1 "cfgA,cfgB@local" ⟨"local", [⟨"cfgA"⟩, ⟨"cfgB"⟩]⟩
      (by decide) (by decide),
    target_path_roundtrip_c8.2.2 "wgpudx12" (by decide)⟩

lemma exists_pair_ne_cons (x : List Nat) (xs : List (List Nat)) :
    (∃ o1 ∈ x :: xs, ∃ o2 ∈ x :: xs, o1 ≠ o2) ↔ ∃ o ∈ xs, o ≠ x := by
  constructor
  · rintro ⟨o1, h1, o2, h2, hne⟩
    by_cases hx1 : o1 = x
    · subst hx1
      have m2 : o2 ∈ xs := by
        rcases List.mem_cons.mp h2 with e2 | m2
        · exact absurd e2.symm hne
        · exact m2
      exact ⟨o2, m2, fun h => hne h.symm⟩
    · have m1 : o1 ∈ xs := by
        rcases List.mem_cons.mp h1 with e1 | m1
        · exact absurd e1 hx1
        · exact m1
      exact ⟨o1, m1, hx1⟩
  · rintro ⟨o, ho, hne⟩
    exact ⟨x, by simp, o, by simp [ho], fun h => hne h.symm⟩

lemma reduceMismatchGo_some_char (ref : List Nat) (l : List TestCmd.ExecutionResult) :
    TestCmd.reduceMismatchGo (some ref) l = true ↔
      (∃ r ∈ l, TestCmd.isMismatchResult r = true) ∨
      (∃ o ∈ TestCmd.successOutputs l, o ≠ ref) := by
  induction l with
  | nil => simp [TestCmd.reduceMismatchGo, TestCmd.successOutputs]
  | cons r rest ih =>
      cases r with
      | Mismatch es =>
          simp [TestCmd.reduceMismatchGo, TestCmd.isMismatchResult]
      | Crash o =>
          simp only [TestCmd.reduceMismatchGo, ih, TestCmd.successOutputs,
            List.filterMap_cons]
          simp [TestCmd.isMismatchResult, TestCmd.successOutputs]
      | Success e =>
          cases e with
          | none =>
              simp only [TestCmd.reduceMismatchGo, ih, TestCmd.successOutputs,
                List.filterMap_cons]
              simp [TestCmd.isMismatchResult, TestCmd.successOutputs]
          | some entry =>
              by_cases he : entry.output = ref
              · have hgo : TestCmd.reduceMismatchGo (some ref)
                    (TestCmd.ExecutionResult.Success (some entry) :: rest)
                    = TestCmd.reduceMismatchGo (some ref) rest := by
                  simp [TestCmd.reduceMismatchGo, he]
                rw [hgo, ih]
                simp [TestCmd.successOutputs, List.filterMap_cons,
                  TestCmd.isMismatchResult, he]
              · have hgo : TestCmd.reduceMismatchGo (some ref)
                    (TestCmd.ExecutionResult.Success (some entry) :: rest) = true := by
                  simp [TestCmd.reduceMismatchGo, he]
                rw [hgo]
                constructor
                · intro _
                  exact Or.inr ⟨entry.output, by
                    simp [TestCmd.successOutputs, List.filterMap_cons], he⟩
                · intro _
                  rfl

lemma reduceMismatchGo_none_char (l : List TestCmd.ExecutionResult) :
    TestCmd.reduceMismatchGo none l = true ↔
      (∃ r ∈ l, TestCmd.isMismatchResult r = true) ∨
      (∃ o1 ∈ TestCmd.successOutputs l, ∃ o2 ∈ TestCmd.successOutputs l, o1 ≠ o2) := by
  induction l with
  | nil => simp [TestCmd.reduceMismatchGo, TestCmd.successOutputs]
  | cons r rest ih =>
      cases r with
      | Mismatch es =>
          simp [TestCmd.reduceMismatchGo, TestCmd.isMismatchResult]
      | Crash o =>
          simp only [TestCmd.reduceMismatchGo, ih, TestCmd.successOutputs,
            List.filterMap_cons]
          simp [TestCmd.isMismatchResult, TestCmd.successOutputs]
      | Success e =>
          cases e with
          | none =>
              simp only [TestCmd.reduceMismatchGo, ih, TestCmd.successOutputs,
                List.filterMap_cons]
              simp [TestCmd.isMismatchResult, TestCmd.successOutputs]
          | some entry =>
              have hgo : TestCmd.reduceMismatchGo none
                  (TestCmd.ExecutionResult.Success (some entry) :: rest)
                  = TestCmd.reduceMismatchGo (some entry.output) rest := rfl
              have houts : TestCmd.successOutputs
                  (TestCmd.ExecutionResult.Success (some entry) :: rest)
                  = entry.output :: TestCmd.successOutputs rest := by
                simp [TestCmd.successOutputs, List.filterMap_cons]
              rw [hgo, reduceMismatchGo_some_char, houts, exists_pair_ne_cons]
              have hmis : (∃ r ∈ TestCmd.ExecutionResult.Success (some entry) :: rest,
                  TestCmd.isMismatchResult r = true)
                  ↔ ∃ r ∈ rest, TestCmd.isMismatchResult r = true := by
                simp [TestCmd.isMismatchResult]
              rw [hmis]

/-- C1 (amended): the mismatch-seeking oracle, scanning its ordered target
list and stopping at the first satisfied condition, reports the candidate
interesting if and only if (a) some target's execution yields a Mismatch
result, or (b) two targets' present Success payloads have different output
bytes (equivalently, some present Success payload differs from the running
first-seen reference); targets that time out or whose success payload is
absent are skipped, and — contrary to the original claim — targets whose
execution yields a Crash result are likewise skipped and never by themselves
make the candidate interesting. -/
theorem reduce_mismatch_oracle_c1 (results : List TestCmd.ExecutionResult) :
    TestCmd.reduce_mismatch_interesting results = true ↔
      (∃ r ∈ results, TestCmd.isMismatchResult r = true) ∨
      (∃ o1 ∈ TestCmd.successOutputs results, ∃ o2 ∈ TestCmd.successOutputs results,
        o1 ≠ o2) :=
  reduceMismatchGo_none_char results

/-- Counterexample for C1 as stated: a target list whose only entry is a
Crash result is reported not interesting, although clause (c) of the claim
says any Crash makes the candidate interesting. -/
theorem reduce_mismatch_oracle_c1_counterexample :
    TestCmd.ExecutionResult.Crash "boom"
        ∈ [TestCmd.ExecutionResult.Crash "boom"] ∧
    TestCmd.reduce_mismatch_interesting [TestCmd.ExecutionResult.Crash "boom"] = false :=
  ⟨by simp, by decide⟩

lemma foldl_consensus_no_marker (parse : String → Except String (List HarnessRunner.ConsensusEntry))
    (lines : List String) :
    ∀ acc : HarnessRunner.LineAcc, (∀ l ∈ lines, HarnessRunner.hasMarker l = false) →
      (lines.foldl (HarnessRunner.processLine parse) acc).consensus = acc.consensus := by
  induction lines with
  | nil => intro acc _; rfl
  | cons line rest ih =>
      intro acc h
      have hline : HarnessRunner.hasMarker line = false := h line (by simp)
      have hstep : HarnessRunner.processLine parse acc line
          = { acc with output := acc.output ++ line ++ "\n" } := by
        simp [HarnessRunner.processLine, hline]
      rw [List.foldl_cons, hstep, ih _ fun l hl => h l (by simp [hl])]

lemma processLines_single_marker
    (parse : String → Except String (List HarnessRunner.ConsensusEntry))
    (pre post : List String) (line : String)
    (entries : List HarnessRunner.ConsensusEntry)
    (hpre : ∀ l ∈ pre, HarnessRunner.hasMarker l = false)
    (hline : HarnessRunner.hasMarker line = true)
    (hparse : parse (HarnessRunner.stripMarker line) = .ok entries)
    (hpost : ∀ l ∈ post, HarnessRunner.hasMarker l = false) :
    (HarnessRunner.processLines parse (pre ++ line :: post)).consensus = entries := by
  unfold HarnessRunner.processLines
  rw [List.foldl_append, List.foldl_cons]
  have hstep : HarnessRunner.processLine parse
      (pre.foldl (HarnessRunner.processLine parse) ⟨"", []⟩) line
      = { pre.foldl (HarnessRunner.processLine parse) ⟨"", []⟩ with consensus := entries } := by
    simp [HarnessRunner.processLine, hline, hparse]
  rw [hstep, foldl_consensus_no_marker parse post _ hpost]

/-- C10: under the model of `exec_shader_impl`, exit code 0 yields
`Success` whose payload is the output bytes of the first entry of the parsed
consensus list — the entries parsed from the (single) line carrying the
`output-consensus: ` marker — and the empty byte sequence when no such line
was emitted; exit code 1 yields `Mismatch` carrying exactly the parsed
consensus entries; exit code 101 yields `Crash` carrying the accumulated
non-consensus output text; and any other exit code (or a missing one) is an
error. -/
theorem exec_shader_exit_contract_c10
    (parse : String → Except String (List HarnessRunner.ConsensusEntry))
    (lines : List String) :
    (HarnessRunner.exec_shader_model parse lines (some 0)
        = .ok (.Success
            ((((HarnessRunner.processLines parse lines).consensus.head?).map
              fun e => e.output).getD []))) ∧
    ((∀ l ∈ lines, HarnessRunner.hasMarker l = false) →
      HarnessRunner.exec_shader_model parse lines (some 0) = .ok (.Success [])) ∧
    (∀ pre line post entries, lines = pre ++ line :: post →
      (∀ l ∈ pre, HarnessRunner.hasMarker l = false) →
      HarnessRunner.hasMarker line = true →
      parse (HarnessRunner.stripMarker line) = .ok entries →
      (∀ l ∈ post, HarnessRunner.hasMarker l = false) →
      HarnessRunner.exec_shader_model parse lines (some 0)
        = .ok (.Success (((entries.head?).map fun e => e.output).getD []))) ∧
    (HarnessRunner.exec_shader_model parse lines (some 1)
        = .ok (.Mismatch (HarnessRunner.processLines parse lines).consensus)) ∧
    (HarnessRunner.exec_shader_model parse lines (some 101)
        = .ok (.Crash (HarnessRunner.processLines parse lines).output)) ∧
    (∀ code, code ≠ 0 → code ≠ 1 → code ≠ 101 →
      HarnessRunner.exec_shader_model parse lines (some code)
        = .error "harness exited with unrecognised code") ∧
    (HarnessRunner.exec_shader_model parse lines none
        = .error "failed to get harness exit code") := by
  refine ⟨rfl, fun hnone => ?_, fun pre line post entries hsplit hpre hline hparse hpost => ?_,
    rfl, rfl, fun code h0 h1 h101 => ?_, rfl⟩
  · have hcons : (HarnessRunner.processLines parse lines).consensus = [] :=
      foldl_consensus_no_marker parse lines ⟨"", []⟩ hnone
    simp [HarnessRunner.exec_shader_model, HarnessRunner.classifyHarnessExit, hcons]
  · have hcons : (HarnessRunner.processLines parse lines).consensus = entries := by
      rw [hsplit]
      exact processLines_single_marker parse pre post line entries hpre hline hparse hpost
    simp [HarnessRunner.exec_shader_model, HarnessRunner.classifyHarnessExit, hcons]
  · simp [HarnessRunner.exec_shader_model, HarnessRunner.classifyHarnessExit, h0, h1, h101]

/-- Witness for C10: a concrete run with one informational line and one
consensus line classifies exit 0 as `Success` with the first parsed entry's
output bytes, and a concrete unrecognised exit code as an error. -/
theorem exec_shader_exit_contract_c10_witness :
    (HarnessRunner.exec_shader_model
        (fun s => if s = "X" then .ok [⟨[1, 2], ["c1"]⟩] else .error "bad")
        ["hello", "output-consensus: X"] (some 0)
      = .ok (.Success [1, 2])) ∧
    (HarnessRunner.exec_shader_model
        (fun s => if s = "X" then .ok [⟨[1, 2], ["c1"]⟩] else .error "bad")
        ["hello", "output-consensus: X"] (some 7)
      = .error "harness exited with unrecognised code") :=
  ⟨(exec_shader_exit_contract_c10
      (fun s => if s = "X" then .ok [⟨[1, 2], ["c1"]⟩] else .error "bad")
      ["hello", "output-consensus: X"]).2.2.1
      ["hello"] "output-consensus: X" [] [⟨[1, 2], ["c1"]⟩]
      rfl (by decide) (by decide) rfl (by decide),
    (exec_shader_exit_contract_c10
      (fun s => if s = "X" then .ok [⟨[1, 2], ["c1"]⟩] else .error "bad")
      ["hello", "output-consensus: X"]).2.2.2.2.2.1 7
      (by decide) (by decide) (by decide)⟩

/-- C2 (amended): for one low-level worker invocation by the orchestrator,
exit code 0 means stdout is decoded as the Output message and yields a
Success classification (an undecodable stdout being a fatal protocol error),
while every nonzero exit code — 101 or any other — yields a Failure
classification carrying the stderr bytes; a spawn failure is a fatal process
error. Contrary to the original claim, exit codes outside {0, 101} are not
distinguished from 101 and raise no fatal orchestration error. -/
theorem worker_exit_contract_c2 (decode : List Nat → Option (List (List Nat)))
    (c : ConfigId) (dur code : Nat) (stdout stderr : List Nat) (msg : String) :
    (code ≠ 0 →
      Harness.classifyWorker decode none c (.runs dur code stdout stderr)
        = .emit (.Failure stderr)) ∧
    (Harness.classifyWorker decode none c (.runs dur 0 stdout stderr)
      = match decode stdout with
        | some buffers => .emit (.Success c buffers)
        | none => .fail (.Protocol "bincode decode")) ∧
    (Harness.classifyWorker decode none c (.spawnError msg) = .fail (.Process msg)) := by
  refine ⟨fun h => ?_, ?_, rfl⟩
  · simp [Harness.classifyWorker, Harness.timeoutExpired, h]
  · cases hd : decode stdout with
    | none => simp [Harness.classifyWorker, Harness.timeoutExpired, hd]
    | some buffers => simp [Harness.classifyWorker, Harness.timeoutExpired, hd]

/-- Witness for C2 (amended): exit code 7 is classified as a Failure event
carrying the stderr bytes. -/
theorem worker_exit_contract_c2_witness :
    Harness.classifyWorker (fun _ => some []) none ⟨"cfg"⟩
        (Harness.WorkerRun.runs 0 7 [] [3])
      = Harness.StepOutcome.emit (Harness.ExecutionEvent.Failure [3]) :=
  (worker_exit_contract_c2 (fun _ => some []) ⟨"cfg"⟩ 0 7 [] [3] "m").1 (by decide)

/-- Counterexample for C2 as stated: a worker exiting with code 5 — outside
{0, 101} — is classified as a Failure event instead of raising a fatal
ProcessError. -/
theorem worker_exit_contract_c2_counterexample :
    Harness.classifyWorker (fun _ => some []) none ⟨"cfg"⟩
        (Harness.WorkerRun.runs 0 5 [] [9])
      = Harness.StepOutcome.emit (Harness.ExecutionEvent.Failure [9]) ∧
    (5 : Nat) ≠ 0 ∧ (5 : Nat) ≠ 101 :=
  ⟨rfl, by decide, by decide⟩

/-- C4 (amended): every `ExecutionEvent` is one of UsingDefaultConfigs(list
of ConfigId), Start(ConfigId), Success(ConfigId, raw buffers),
Failure(diagnostic bytes) or Timeout; the Failure and Timeout variants carry
no `ConfigId`, so — contrary to the original claim — the Timeout event
synthesized for a timed-out execution does not identify which `ConfigId`
timed out. -/
theorem execution_event_shape_c4 (e : Harness.ExecutionEvent) :
    (∃ cs, e = .UsingDefaultConfigs cs) ∨ (∃ c, e = .Start c) ∨
    (∃ c buffers, e = .Success c buffers) ∨ (∃ bytes, e = .Failure bytes) ∨
    e = .Timeout := by
  cases e with
  | UsingDefaultConfigs cs => exact Or.inl ⟨cs, rfl⟩
  | Start c => exact Or.inr (Or.inl ⟨c, rfl⟩)
  | Success c buffers => exact Or.inr (Or.inr (Or.inl ⟨c, buffers, rfl⟩))
  | Failure bytes => exact Or.inr (Or.inr (Or.inr (Or.inl ⟨bytes, rfl⟩)))
  | Timeout => exact Or.inr (Or.inr (Or.inr (Or.inr rfl)))

/-- Counterexample for C4 as stated: two different configs whose workers
exceed the time limit produce the same synthesized Timeout event, so the
event does not identify which `ConfigId` timed out. -/
theorem execution_event_shape_c4_counterexample :
    Harness.classifyWorker (fun _ => some []) (some 1) ⟨"cfgA"⟩
        (Harness.WorkerRun.runs 5 0 [] [])
      = Harness.classifyWorker (fun _ => some []) (some 1) ⟨"cfgB"⟩
          (Harness.WorkerRun.runs 5 0 [] []) ∧
    (⟨"cfgA"⟩ : ConfigId) ≠ ⟨"cfgB"⟩ :=
  ⟨rfl, by decide⟩

namespace Harness

lemma mem_of_getElemOpt {α : Type} (l : List α) (i : Nat) (t : α) (h : l[i]? = some t) :
    t ∈ l := by
  obtain ⟨hb, he⟩ := List.getElem?_eq_some_iff.mp h
  exact he ▸ List.getElem_mem hb

lemma bound_of_getElemOpt {α : Type} (l : List α) (i : Nat) (t : α) (h : l[i]? = some t) :
    i < l.length :=
  (List.getElem?_eq_some_iff.mp h).1

lemma countP_set_balance {α : Type} (p : α → Bool) (l : List α) (i : Nat) (a t : α)
    (h : l[i]? = some t) :
    (l.set i a).countP p + (if p t then 1 else 0)
      = l.countP p + (if p a then 1 else 0) := by
  induction l generalizing i with
  | nil => simp at h
  | cons x xs ih =>
      cases i with
      | zero =>
          simp only [List.getElem?_cons_zero, Option.some.injEq] at h
          subst h
          simp only [List.set_cons_zero, List.countP_cons]
          omega
      | succ n =>
          simp only [List.getElem?_cons_succ] at h
          have hx := ih n h
          simp only [List.set_cons_succ, List.countP_cons]
          omega

lemma countP_set_keep {α : Type} (p : α → Bool) (l : List α) (i : Nat) (a t : α)
    (h : l[i]? = some t) (hpt : p t = false) (hpa : p a = false) :
    (l.set i a).countP p = l.countP p := by
  have hx := countP_set_balance p l i a t h
  rw [hpt, hpa] at hx
  omega

lemma countP_set_up {α : Type} (p : α → Bool) (l : List α) (i : Nat) (a t : α)
    (h : l[i]? = some t) (hpt : p t = false) (hpa : p a = true) :
    (l.set i a).countP p = l.countP p + 1 := by
  have hx := countP_set_balance p l i a t h
  rw [hpt, hpa] at hx
  simp at hx
  omega

lemma countP_set_down {α : Type} (p : α → Bool) (l : List α) (i : Nat) (a t : α)
    (h : l[i]? = some t) (hpt : p t = true) (hpa : p a = false) :
    (l.set i a).countP p + 1 = l.countP p := by
  have hx := countP_set_balance p l i a t h
  rw [hpt, hpa] at hx
  simp at hx
  omega

lemma countP_pos_of_getElemOpt {α : Type} (p : α → Bool) (l : List α) (i : Nat) (t : α)
    (h : l[i]? = some t) (hp : p t = true) : 0 < l.countP p :=
  List.countP_pos.mpr ⟨t, mem_of_getElemOpt l i t h, hp⟩

lemma countP_replicate_false {α : Type} (p : α → Bool) (a : α) (n : Nat)
    (h : p a = false) : (List.replicate n a).countP p = 0 := by
  induction n with
  | zero => rfl
  | succ m ih => simp [List.replicate_succ, List.countP_cons, h, ih]

lemma projTrace_append_same (c : ConfigId) (tr : List (Option ConfigId × ExecutionEvent))
    (e : ExecutionEvent) :
    projTrace c (tr ++ [(some c, e)]) = projTrace c tr ++ [e] := by
  simp [projTrace]

lemma projTrace_append_other (c c' : ConfigId)
    (tr : List (Option ConfigId × ExecutionEvent)) (e : ExecutionEvent) (h : c' ≠ c) :
    projTrace c (tr ++ [(some c', e)]) = projTrace c tr := by
  simp [projTrace, h]

lemma projTrace_of_none_tags (c : ConfigId)
    (tr : List (Option ConfigId × ExecutionEvent))
    (h : ∀ p ∈ tr, p.1 = (none : Option ConfigId)) : projTrace c tr = [] := by
  unfold projTrace
  rw [List.filter_eq_nil_iff.mpr]
  · rfl
  · intro p hp
    simp [h p hp]

lemma classify_emit_terminal (decode : List Nat → Option (List (List Nat)))
    (timeout : Option Nat) (c : ConfigId) (w : WorkerRun) (ev : ExecutionEvent)
    (h : classifyWorker decode timeout c w = .emit ev) : isTerminalEvent ev = true := by
  cases w with
  | spawnError m => simp [classifyWorker] at h
  | runs dur code stdout stderr =>
      simp only [classifyWorker] at h
      cases htm : timeoutExpired timeout dur with
      | true =>
          rw [htm, if_pos rfl] at h
          injection h with hev
          rw [← hev]
          rfl
      | false =>
          rw [htm, if_neg (by simp)] at h
          by_cases hc : code = 0
          · rw [if_pos hc] at h
            cases hd : decode stdout with
            | none => rw [hd] at h; cases h
            | some buffers =>
                rw [hd] at h
                injection h with hev
                rw [← hev]
                rfl
          · rw [if_neg hc] at h
            injection h with hev
            rw [← hev]
            rfl

end Harness

namespace Harness

lemma stepThread_char (env : HarnessEnv) (timeout : Option Nat) (s : ExecState) (i : Nat) :
    (s.threads[i]? = none ∧ stepThread env timeout s i = s)
    ∨ (∃ r, s.threads[i]? = some (ThreadState.done r) ∧ stepThread env timeout s i = s)
    ∨ (s.threads[i]? = some ThreadState.idle ∧ s.remaining = [] ∧
        stepThread env timeout s i = finishThread s i none)
    ∨ (∃ c rest, s.threads[i]? = some ThreadState.idle ∧ s.remaining = c :: rest ∧
        stepThread env timeout s i
          = { s with remaining := rest,
                     threads := s.threads.set i (ThreadState.gotConfig c) })
    ∨ (∃ c e, s.threads[i]? = some (ThreadState.gotConfig c) ∧
        env.cb (events s) (ExecutionEvent.Start c) = some e ∧
        stepThread env timeout s i
          = finishThread
              { s with trace := s.trace ++ [(some c, ExecutionEvent.Start c)] } i (some e))
    ∨ (∃ c, s.threads[i]? = some (ThreadState.gotConfig c) ∧
        env.cb (events s) (ExecutionEvent.Start c) = none ∧
        stepThread env timeout s i
          = { s with trace := s.trace ++ [(some c, ExecutionEvent.Start c)],
                     threads := s.threads.set i (ThreadState.running c) })
    ∨ (∃ c err, s.threads[i]? = some (ThreadState.running c) ∧
        classifyWorker env.decode timeout c (env.behavior c) = StepOutcome.fail err ∧
        stepThread env timeout s i = finishThread s i (some err))
    ∨ (∃ c ev e, s.threads[i]? = some (ThreadState.running c) ∧
        classifyWorker env.decode timeout c (env.behavior c) = StepOutcome.emit ev ∧
        env.cb (events s) ev = some e ∧
        stepThread env timeout s i
          = finishThread { s with trace := s.trace ++ [(some c, ev)] } i (some e))
    ∨ (∃ c ev, s.threads[i]? = some (ThreadState.running c) ∧
        classifyWorker env.decode timeout c (env.behavior c) = StepOutcome.emit ev ∧
        env.cb (events s) ev = none ∧
        stepThread env timeout s i
          = { s with trace := s.trace ++ [(some c, ev)],
                     threads := s.threads.set i ThreadState.idle }) := by
  cases ht : s.threads[i]? with
  | none =>
      refine Or.inl ⟨rfl, ?_⟩
      simp [stepThread, ht]
  | some t =>
      cases t with
      | done r =>
          refine Or.inr (Or.inl ⟨r, rfl, ?_⟩)
          simp [stepThread, ht]
      | idle =>
          cases hr : s.remaining with
          | nil =>
              refine Or.inr (Or.inr (Or.inl ⟨rfl, rfl, ?_⟩))
              simp [stepThread, ht, hr]
          | cons c rest =>
              refine Or.inr (Or.inr (Or.inr (Or.inl ⟨c, rest, rfl, rfl, ?_⟩)))
              simp [stepThread, ht, hr]
      | gotConfig c =>
          cases hcb : env.cb (events s) (ExecutionEvent.Start c) with
          | some e =>
              refine Or.inr (Or.inr (Or.inr (Or.inr (Or.inl ⟨c, e, rfl, hcb, ?_⟩))))
              simp only [stepThread, ht, emitEvent]
              rw [show (env.cb (s.trace.map fun p => p.2) (ExecutionEvent.Start c))
                  = some e from hcb]
          | none =>
              refine Or.inr (Or.inr (Or.inr (Or.inr (Or.inr (Or.inl ⟨c, rfl, hcb, ?_⟩)))))
              simp only [stepThread, ht, emitEvent]
              rw [show (env.cb (s.trace.map fun p => p.2) (ExecutionEvent.Start c))
                  = none from hcb]
      | running c =>
          cases hcl : classifyWorker env.decode timeout c (env.behavior c) with
          | fail err =>
              refine Or.inr (Or.inr (Or.inr (Or.inr (Or.inr (Or.inr
                (Or.inl ⟨c, err, rfl, hcl, ?_⟩))))))
              simp [stepThread, ht, hcl]
          | emit ev =>
              cases hcb : env.cb (events s) ev with
              | some e =>
                  refine Or.inr (Or.inr (Or.inr (Or.inr (Or.inr (Or.inr (Or.inr
                    (Or.inl ⟨c, ev, e, rfl, hcl, hcb, ?_⟩)))))))
                  simp only [stepThread, ht, hcl, emitEvent]
                  rw [show (env.cb (s.trace.map fun p => p.2) ev) = some e from hcb]
              | none =>
                  refine Or.inr (Or.inr (Or.inr (Or.inr (Or.inr (Or.inr (Or.inr (Or.inr
                    ⟨c, ev, rfl, hcl, hcb, ?_⟩)))))))
                  simp only [stepThread, ht, hcl, emitEvent]
                  rw [show (env.cb (s.trace.map fun p => p.2) ev) = none from hcb]

end Harness

namespace Harness

lemma errFree_back_of_set (s : ExecState) (i : Nat) (a t : ThreadState)
    (ht : s.threads[i]? = some t) (hta : ∀ e, t ≠ ThreadState.done (some e))
    (next : ExecState) (hn : next.threads = s.threads.set i a)
    (hnf : errFree next) : errFree s := by
  intro j e' hje
  by_cases hij : i = j
  · subst hij
    rw [ht] at hje
    exact hta e' (Option.some.inj hje)
  · apply hnf j e'
    rw [hn, List.getElem?_set_ne hij]
    exact hje

lemma errFree_absurd_of_set (s : ExecState) (i : Nat) (e : ExecutionError)
    (t : ThreadState) (ht : s.threads[i]? = some t) (next : ExecState)
    (hn : next.threads = s.threads.set i (ThreadState.done (some e)))
    (hnf : errFree next) : False := by
  apply hnf i e
  rw [hn]
  exact List.getElem?_set_eq_of_lt _ (bound_of_getElemOpt _ _ _ ht)

lemma errFree_step_back (env : HarnessEnv) (timeout : Option Nat) (s : ExecState)
    (i : Nat) (h : errFree (stepThread env timeout s i)) : errFree s := by
  rcases stepThread_char env timeout s i with
    ⟨ht, hs⟩ | ⟨r, ht, hs⟩ | ⟨ht, hr, hs⟩ | ⟨c, rest, ht, hr, hs⟩ | ⟨c, e, ht, hcb, hs⟩ |
    ⟨c, ht, hcb, hs⟩ | ⟨c, err, ht, hcl, hs⟩ | ⟨c, ev, e, ht, hcl, hcb, hs⟩ |
    ⟨c, ev, ht, hcl, hcb, hs⟩
  · exact hs ▸ h
  · exact hs ▸ h
  · exact errFree_back_of_set s i (ThreadState.done none) ThreadState.idle ht
      (by intro e h; cases h) _ (by rw [hs]; rfl) h
  · exact errFree_back_of_set s i (ThreadState.gotConfig c) ThreadState.idle ht
      (by intro e h; cases h) _ (by rw [hs]) h
  · exact (errFree_absurd_of_set s i e (ThreadState.gotConfig c) ht _ (by rw [hs]; rfl) h).elim
  · exact errFree_back_of_set s i (ThreadState.running c) (ThreadState.gotConfig c) ht
      (by intro e h; cases h) _ (by rw [hs]) h
  · exact (errFree_absurd_of_set s i err (ThreadState.running c) ht _ (by rw [hs]; rfl) h).elim
  · exact (errFree_absurd_of_set s i e (ThreadState.running c) ht _ (by rw [hs]; rfl) h).elim
  · exact errFree_back_of_set s i ThreadState.idle (ThreadState.running c) ht
      (by intro e h; cases h) _ (by rw [hs]) h

lemma drain_of_set (s : ExecState) (i : Nat) (a : ThreadState)
    (ha : a ≠ ThreadState.done none) (h : DrainInv s) (next : ExecState)
    (hnt : next.threads = s.threads.set i a) (hnr : next.remaining = s.remaining) :
    DrainInv next := by
  rintro ⟨j, hj⟩
  rw [hnr]
  apply h
  rw [hnt] at hj
  by_cases hij : i = j
  · subst hij
    by_cases hlen : i < s.threads.length
    · rw [List.getElem?_set_eq_of_lt a hlen] at hj
      exact absurd (Option.some.inj hj) ha
    · have hnone : (s.threads.set i a).length ≤ i := by rw [List.length_set]; omega
      rw [List.getElem?_eq_none_iff.mpr hnone] at hj
      cases hj
  · rw [List.getElem?_set_ne hij] at hj
    exact ⟨j, hj⟩

lemma drainInv_step (env : HarnessEnv) (timeout : Option Nat) (s : ExecState) (i : Nat)
    (h : DrainInv s) : DrainInv (stepThread env timeout s i) := by
  rcases stepThread_char env timeout s i with
    ⟨ht, hs⟩ | ⟨r, ht, hs⟩ | ⟨ht, hr, hs⟩ | ⟨c, rest, ht, hr, hs⟩ | ⟨c, e, ht, hcb, hs⟩ |
    ⟨c, ht, hcb, hs⟩ | ⟨c, err, ht, hcl, hs⟩ | ⟨c, ev, e, ht, hcl, hcb, hs⟩ |
    ⟨c, ev, ht, hcl, hcb, hs⟩
  · rw [hs]; exact h
  · rw [hs]; exact h
  · intro _
    rw [hs]
    exact hr
  · rintro ⟨j, hj⟩
    exfalso
    rw [hs] at hj
    by_cases hij : i = j
    · subst hij
      by_cases hlen : i < s.threads.length
      · rw [List.getElem?_set_eq_of_lt _ hlen] at hj
        cases hj
      · have hnone : (s.threads.set i (ThreadState.gotConfig c)).length ≤ i := by
          rw [List.length_set]; omega
        rw [List.getElem?_eq_none_iff.mpr hnone] at hj
        cases hj
    · rw [List.getElem?_set_ne hij] at hj
      have hempty := h ⟨j, hj⟩
      rw [hr] at hempty
      cases hempty
  · exact drain_of_set s i (ThreadState.done (some e)) (by simp) h _
      (by rw [hs]; rfl) (by rw [hs]; rfl)
  · exact drain_of_set s i (ThreadState.running c) (by simp) h _
      (by rw [hs]) (by rw [hs])
  · exact drain_of_set s i (ThreadState.done (some err)) (by simp) h _
      (by rw [hs]; rfl) (by rw [hs]; rfl)
  · exact drain_of_set s i (ThreadState.done (some e)) (by simp) h _
      (by rw [hs]; rfl) (by rw [hs]; rfl)
  · exact drain_of_set s i ThreadState.idle (by simp) h _
      (by rw [hs]) (by rw [hs])

lemma errLog_of_set (s : ExecState) (i : Nat) (a : ThreadState)
    (errs' : List ExecutionError) (h : ErrLogInv s)
    (ha : ∀ e, a = ThreadState.done (some e) → e ∈ errs')
    (hmono : ∀ e, e ∈ s.errors → e ∈ errs') (next : ExecState)
    (hnt : next.threads = s.threads.set i a) (hne : next.errors = errs') :
    ErrLogInv next := by
  intro j e hj
  rw [hnt] at hj
  rw [hne]
  by_cases hij : i = j
  · subst hij
    by_cases hlen : i < s.threads.length
    · rw [List.getElem?_set_eq_of_lt a hlen] at hj
      exact ha e (Option.some.inj hj)
    · have hnone : (s.threads.set i a).length ≤ i := by rw [List.length_set]; omega
      rw [List.getElem?_eq_none_iff.mpr hnone] at hj
      cases hj
  · rw [List.getElem?_set_ne hij] at hj
    exact hmono e (h j e hj)

lemma errLogInv_step (env : HarnessEnv) (timeout : Option Nat) (s : ExecState) (i : Nat)
    (h : ErrLogInv s) : ErrLogInv (stepThread env timeout s i) := by
  rcases stepThread_char env timeout s i with
    ⟨ht, hs⟩ | ⟨r, ht, hs⟩ | ⟨ht, hr, hs⟩ | ⟨c, rest, ht, hr, hs⟩ | ⟨c, e, ht, hcb, hs⟩ |
    ⟨c, ht, hcb, hs⟩ | ⟨c, err, ht, hcl, hs⟩ | ⟨c, ev, e, ht, hcl, hcb, hs⟩ |
    ⟨c, ev, ht, hcl, hcb, hs⟩
  · rw [hs]; exact h
  · rw [hs]; exact h
  · exact errLog_of_set s i (ThreadState.done none) s.errors h
      (by intro e he; cases he) (fun e he => he) _ (by rw [hs]; rfl) (by rw [hs]; rfl)
  · exact errLog_of_set s i (ThreadState.gotConfig c) s.errors h
      (by intro e he; cases he) (fun e he => he) _ (by rw [hs]) (by rw [hs])
  · exact errLog_of_set s i (ThreadState.done (some e)) (s.errors ++ [e]) h
      (by intro e' he'; injection he' with hx; injection hx with hy; rw [← hy]; simp)
      (fun e' he' => List.mem_append_left _ he') _ (by rw [hs]; rfl) (by rw [hs]; rfl)
  · exact errLog_of_set s i (ThreadState.running c) s.errors h
      (by intro e he; cases he) (fun e he => he) _ (by rw [hs]) (by rw [hs])
  · exact errLog_of_set s i (ThreadState.done (some err)) (s.errors ++ [err]) h
      (by intro e' he'; injection he' with hx; injection hx with hy; rw [← hy]; simp)
      (fun e' he' => List.mem_append_left _ he') _ (by rw [hs]; rfl) (by rw [hs]; rfl)
  · exact errLog_of_set s i (ThreadState.done (some e)) (s.errors ++ [e]) h
      (by intro e' he'; injection he' with hx; injection hx with hy; rw [← hy]; simp)
      (fun e' he' => List.mem_append_left _ he') _ (by rw [hs]; rfl) (by rw [hs]; rfl)
  · exact errLog_of_set s i ThreadState.idle s.errors h
      (by intro e he; cases he) (fun e he => he) _ (by rw [hs]) (by rw [hs])

end Harness

namespace Harness

lemma origin_trace_append (D : List ConfigId)
    (tr : List (Option ConfigId × ExecutionEvent)) (c : ConfigId) (e : ExecutionEvent)
    (h1 : ∀ c' e', ((some c', e') : Option ConfigId × ExecutionEvent) ∈ tr → c' ∈ D)
    (hc : c ∈ D) :
    ∀ c' e', ((some c', e') : Option ConfigId × ExecutionEvent) ∈ tr ++ [(some c, e)] →
      c' ∈ D := by
  intro c' e' hm
  rcases List.mem_append.mp hm with hm | hm
  · exact h1 c' e' hm
  · simp only [List.mem_singleton, Prod.mk.injEq, Option.some.injEq] at hm
    exact hm.1 ▸ hc

lemma origin_threads_set (D : List ConfigId) (ts : List ThreadState) (i : Nat)
    (a : ThreadState)
    (h3 : ∀ (j : Nat) (c : ConfigId),
      ts[j]? = some (ThreadState.gotConfig c) ∨ ts[j]? = some (ThreadState.running c) →
      c ∈ D)
    (ha : ∀ c, a = ThreadState.gotConfig c ∨ a = ThreadState.running c → c ∈ D) :
    ∀ (j : Nat) (c : ConfigId),
      (ts.set i a)[j]? = some (ThreadState.gotConfig c) ∨
      (ts.set i a)[j]? = some (ThreadState.running c) → c ∈ D := by
  intro j c hj
  by_cases hij : i = j
  · subst hij
    by_cases hlen : i < ts.length
    · rw [List.getElem?_set_eq_of_lt a hlen] at hj
      rcases hj with hj | hj
      · exact ha c (Or.inl (Option.some.inj hj))
      · exact ha c (Or.inr (Option.some.inj hj))
    · have hnone : (ts.set i a).length ≤ i := by rw [List.length_set]; omega
      rw [List.getElem?_eq_none_iff.mpr hnone] at hj
      rcases hj with hj | hj <;> cases hj
  · rw [List.getElem?_set_ne hij] at hj
    exact h3 j c hj

lemma held_in_D (D : List ConfigId) (s : ExecState) (h : OriginInv D s) (i : Nat)
    (c : ConfigId)
    (ht : s.threads[i]? = some (ThreadState.gotConfig c) ∨
      s.threads[i]? = some (ThreadState.running c)) : c ∈ D :=
  h.2.2 i c ht

lemma originInv_step (env : HarnessEnv) (timeout : Option Nat) (D : List ConfigId)
    (s : ExecState) (i : Nat) (h : OriginInv D s) :
    OriginInv D (stepThread env timeout s i) := by
  obtain ⟨h1, h2, h3⟩ := h
  rcases stepThread_char env timeout s i with
    ⟨ht, hs⟩ | ⟨r, ht, hs⟩ | ⟨ht, hr, hs⟩ | ⟨c, rest, ht, hr, hs⟩ | ⟨c, e, ht, hcb, hs⟩ |
    ⟨c, ht, hcb, hs⟩ | ⟨c, err, ht, hcl, hs⟩ | ⟨c, ev, e, ht, hcl, hcb, hs⟩ |
    ⟨c, ev, ht, hcl, hcb, hs⟩
  · rw [hs]; exact ⟨h1, h2, h3⟩
  · rw [hs]; exact ⟨h1, h2, h3⟩
  · rw [hs]
    exact ⟨h1, h2, origin_threads_set D s.threads i (ThreadState.done none) h3
      (by intro c hc; rcases hc with hc | hc <;> cases hc)⟩
  · rw [hs]
    have hcD : c ∈ D := h2 c (by rw [hr]; simp)
    refine ⟨h1, fun c' hc' => h2 c' (by rw [hr]; simp [hc']), ?_⟩
    exact origin_threads_set D s.threads i (ThreadState.gotConfig c) h3
      (by
        intro c' hc'
        rcases hc' with hc' | hc'
        · injection hc' with hx; exact hx ▸ hcD
        · cases hc')
  · rw [hs]
    have hcD : c ∈ D := h3 i c (Or.inl ht)
    exact ⟨origin_trace_append D s.trace c (ExecutionEvent.Start c) h1 hcD, h2,
      origin_threads_set D s.threads i (ThreadState.done (some e)) h3
        (by intro c' hc'; rcases hc' with hc' | hc' <;> cases hc')⟩
  · rw [hs]
    have hcD : c ∈ D := h3 i c (Or.inl ht)
    exact ⟨origin_trace_append D s.trace c (ExecutionEvent.Start c) h1 hcD, h2,
      origin_threads_set D s.threads i (ThreadState.running c) h3
        (by
          intro c' hc'
          rcases hc' with hc' | hc'
          · cases hc'
          · injection hc' with hx; exact hx ▸ hcD)⟩
  · rw [hs]
    exact ⟨h1, h2, origin_threads_set D s.threads i (ThreadState.done (some err)) h3
      (by intro c' hc'; rcases hc' with hc' | hc' <;> cases hc')⟩
  · rw [hs]
    have hcD : c ∈ D := h3 i c (Or.inr ht)
    exact ⟨origin_trace_append D s.trace c ev h1 hcD, h2,
      origin_threads_set D s.threads i (ThreadState.done (some e)) h3
        (by intro c' hc'; rcases hc' with hc' | hc' <;> cases hc')⟩
  · rw [hs]
    have hcD : c ∈ D := h3 i c (Or.inr ht)
    exact ⟨origin_trace_append D s.trace c ev h1 hcD, h2,
      origin_threads_set D s.threads i ThreadState.idle h3
        (by intro c' hc'; rcases hc' with hc' | hc' <;> cases hc')⟩

end Harness

namespace Harness

lemma phaseInv_untouched (c : ConfigId) (s next : ExecState)
    (hrem : c ∈ next.remaining ↔ c ∈ s.remaining)
    (hgot : next.threads.countP (holdsGot c) = s.threads.countP (holdsGot c))
    (hrun : next.threads.countP (holdsRun c) = s.threads.countP (holdsRun c))
    (hproj : projTrace c next.trace = projTrace c s.trace)
    (h : PhaseInv c s) : PhaseInv c next := by
  rcases h with ⟨ha, hb, hc, hd⟩ | ⟨ha, hb, hc, hd⟩ | ⟨ha, hb, hc, hd⟩ | ⟨ha, hb, hc, hd⟩
  · exact Or.inl ⟨hrem.mpr ha, by rw [hgot, hb], by rw [hrun, hc], by rw [hproj, hd]⟩
  · exact Or.inr (Or.inl ⟨fun hx => ha (hrem.mp hx), by rw [hgot, hb],
      by rw [hrun, hc], by rw [hproj, hd]⟩)
  · exact Or.inr (Or.inr (Or.inl ⟨fun hx => ha (hrem.mp hx), by rw [hgot, hb],
      by rw [hrun, hc], by rw [hproj, hd]⟩))
  · obtain ⟨t, ht1, ht2⟩ := hd
    exact Or.inr (Or.inr (Or.inr ⟨fun hx => ha (hrem.mp hx), by rw [hgot, hb],
      by rw [hrun, hc], ⟨t, ht1, by rw [hproj, ht2]⟩⟩))

end Harness

namespace Harness

lemma schedInv_step (env : HarnessEnv) (timeout : Option Nat) (cfgs : List ConfigId)
    (hnd : cfgs.Nodup) (s : ExecState) (i : Nat) (hinv : SchedInv cfgs s)
    (hef : errFree (stepThread env timeout s i)) :
    SchedInv cfgs (stepThread env timeout s i) := by
  obtain ⟨⟨k, hk⟩, hph⟩ := hinv
  rcases stepThread_char env timeout s i with
    ⟨ht, hs⟩ | ⟨r, ht, hs⟩ | ⟨ht, hr, hs⟩ | ⟨c, rest, ht, hr, hs⟩ | ⟨c, e, ht, hcb, hs⟩ |
    ⟨c, ht, hcb, hs⟩ | ⟨c, err, ht, hcl, hs⟩ | ⟨c, ev, e, ht, hcl, hcb, hs⟩ |
    ⟨c, ev, ht, hcl, hcb, hs⟩
  · rw [hs]; exact ⟨⟨k, hk⟩, hph⟩
  · rw [hs]; exact ⟨⟨k, hk⟩, hph⟩
  · rw [hs]
    refine ⟨⟨k, hk⟩, fun c' hc' => ?_⟩
    exact phaseInv_untouched c' s _ Iff.rfl
      (countP_set_keep (holdsGot c') s.threads i (ThreadState.done none)
        ThreadState.idle ht rfl rfl)
      (countP_set_keep (holdsRun c') s.threads i (ThreadState.done none)
        ThreadState.idle ht rfl rfl)
      rfl (hph c' hc')
  · rw [hs]
    have hdk : cfgs.drop k = c :: rest := by rw [← hk, hr]
    have hrest : rest = cfgs.drop (k + 1) := by
      have hdd := List.drop_drop 1 k cfgs
      rw [hdk] at hdd
      simpa using hdd
    refine ⟨⟨k + 1, hrest⟩, fun c' hc' => ?_⟩
    by_cases hcc : c' = c
    · subst hcc
      rcases hph c' hc' with ⟨_, hb, hc0, hd⟩ | ⟨ha, _, _, _⟩ | ⟨ha, _, _, _⟩ |
        ⟨ha, _, _, _⟩
      · refine Or.inr (Or.inl ⟨?_, ?_, ?_, ?_⟩)
        · have hnodup : (c' :: rest).Nodup := by
            rw [← hdk]
            exact hnd.sublist (List.drop_sublist k cfgs)
          exact (List.nodup_cons.mp hnodup).1
        · rw [countP_set_up (holdsGot c') s.threads i (ThreadState.gotConfig c')
            ThreadState.idle ht rfl (by simp [holdsGot]), hb]
        · rw [countP_set_keep (holdsRun c') s.threads i (ThreadState.gotConfig c')
            ThreadState.idle ht rfl rfl, hc0]
        · exact hd
      · exact absurd (by rw [hr]; exact List.mem_cons_self c' rest) ha
      · exact absurd (by rw [hr]; exact List.mem_cons_self c' rest) ha
      · exact absurd (by rw [hr]; exact List.mem_cons_self c' rest) ha
    · refine phaseInv_untouched c' s _ ?_ ?_ ?_ rfl (hph c' hc')
      · constructor
        · intro hx
          rw [hr]
          exact List.mem_cons_of_mem c hx
        · intro hx
          rw [hr] at hx
          rcases List.mem_cons.mp hx with hx | hx
          · exact absurd hx hcc
          · exact hx
      · exact countP_set_keep (holdsGot c') s.threads i (ThreadState.gotConfig c)
          ThreadState.idle ht rfl
          (by simp only [holdsGot]; exact decide_eq_false fun h => hcc h.symm)
      · exact countP_set_keep (holdsRun c') s.threads i (ThreadState.gotConfig c)
          ThreadState.idle ht rfl rfl
  · exact absurd (show (stepThread env timeout s i).threads[i]?
        = some (ThreadState.done (some e)) by
      rw [hs]; exact List.getElem?_set_eq_of_lt _ (bound_of_getElemOpt _ _ _ ht))
      (hef i e)
  · rw [hs]
    refine ⟨⟨k, hk⟩, fun c' hc' => ?_⟩
    by_cases hcc : c' = c
    · subst hcc
      have hpos := countP_pos_of_getElemOpt (holdsGot c') s.threads i _ ht
        (by simp [holdsGot])
      rcases hph c' hc' with ⟨_, hb, _, _⟩ | ⟨hnm, hb, hc0, hd⟩ | ⟨_, hb, _, _⟩ |
        ⟨_, hb, _, _⟩
      · rw [hb] at hpos; cases hpos
      · refine Or.inr (Or.inr (Or.inl ⟨hnm, ?_, ?_, ?_⟩))
        · have hdown := countP_set_down (holdsGot c') s.threads i
            (ThreadState.running c') (ThreadState.gotConfig c') ht
            (by simp [holdsGot]) rfl
          rw [hb] at hdown
          show (s.threads.set i (ThreadState.running c')).countP (holdsGot c') = 0
          omega
        · rw [countP_set_up (holdsRun c') s.threads i (ThreadState.running c')
            (ThreadState.gotConfig c') ht rfl (by simp [holdsRun]), hc0]
        · rw [projTrace_append_same, hd]
          rfl
      · rw [hb] at hpos; cases hpos
      · rw [hb] at hpos; cases hpos
    · refine phaseInv_untouched c' s _ Iff.rfl ?_ ?_ ?_ (hph c' hc')
      · exact countP_set_keep (holdsGot c') s.threads i (ThreadState.running c)
          (ThreadState.gotConfig c) ht
          (by simp only [holdsGot]; exact decide_eq_false fun h => hcc h.symm) rfl
      · exact countP_set_keep (holdsRun c') s.threads i (ThreadState.running c)
          (ThreadState.gotConfig c) ht rfl
          (by simp only [holdsRun]; exact decide_eq_false fun h => hcc h.symm)
      · exact projTrace_append_other c' c s.trace (ExecutionEvent.Start c)
          fun h => hcc h.symm
  · exact absurd (show (stepThread env timeout s i).threads[i]?
        = some (ThreadState.done (some err)) by
      rw [hs]; exact List.getElem?_set_eq_of_lt _ (bound_of_getElemOpt _ _ _ ht))
      (hef i err)
  · exact absurd (show (stepThread env timeout s i).threads[i]?
        = some (ThreadState.done (some e)) by
      rw [hs]; exact List.getElem?_set_eq_of_lt _ (bound_of_getElemOpt _ _ _ ht))
      (hef i e)
  · rw [hs]
    refine ⟨⟨k, hk⟩, fun c' hc' => ?_⟩
    by_cases hcc : c' = c
    · subst hcc
      have hpos := countP_pos_of_getElemOpt (holdsRun c') s.threads i _ ht
        (by simp [holdsRun])
      rcases hph c' hc' with ⟨_, _, hc0, _⟩ | ⟨_, _, hc0, _⟩ | ⟨hnm, hb, hc0, hd⟩ |
        ⟨_, _, hc0, _⟩
      · rw [hc0] at hpos; cases hpos
      · rw [hc0] at hpos; cases hpos
      · refine Or.inr (Or.inr (Or.inr ⟨hnm, ?_, ?_, ?_⟩))
        · rw [countP_set_keep (holdsGot c') s.threads i ThreadState.idle
            (ThreadState.running c') ht rfl rfl, hb]
        · have hdown := countP_set_down (holdsRun c') s.threads i ThreadState.idle
            (ThreadState.running c') ht (by simp [holdsRun]) rfl
          rw [hc0] at hdown
          show (s.threads.set i ThreadState.idle).countP (holdsRun c') = 0
          omega
        · refine ⟨ev, classify_emit_terminal env.decode timeout c' (env.behavior c')
            ev hcl, ?_⟩
          rw [projTrace_append_same, hd]
          rfl
      · rw [hc0] at hpos; cases hpos
    · refine phaseInv_untouched c' s _ Iff.rfl ?_ ?_ ?_ (hph c' hc')
      · exact countP_set_keep (holdsGot c') s.threads i ThreadState.idle
          (ThreadState.running c) ht rfl rfl
      · exact countP_set_keep (holdsRun c') s.threads i ThreadState.idle
          (ThreadState.running c) ht
          (by simp only [holdsRun]; exact decide_eq_false fun h => hcc h.symm) rfl
      · exact projTrace_append_other c' c s.trace ev fun h => hcc h.symm

end Harness

namespace Harness

lemma errFree_runSched_back (env : HarnessEnv) (timeout : Option Nat) :
    ∀ (sched : List Nat) (s : ExecState),
      errFree (runSched env timeout s sched) → errFree s := by
  intro sched
  induction sched with
  | nil => intro s h; exact h
  | cons i rest ih =>
      intro s h
      exact errFree_step_back env timeout s i (ih _ h)

lemma schedInv_runSched (env : HarnessEnv) (timeout : Option Nat) (cfgs : List ConfigId)
    (hnd : cfgs.Nodup) : ∀ (sched : List Nat) (s : ExecState),
      SchedInv cfgs s → errFree (runSched env timeout s sched) →
      SchedInv cfgs (runSched env timeout s sched) := by
  intro sched
  induction sched with
  | nil => intro s h _; exact h
  | cons i rest ih =>
      intro s h hef
      have hef1 : errFree (stepThread env timeout s i) :=
        errFree_runSched_back env timeout rest _ hef
      exact ih _ (schedInv_step env timeout cfgs hnd s i h hef1) hef

lemma drainInv_runSched (env : HarnessEnv) (timeout : Option Nat) :
    ∀ (sched : List Nat) (s : ExecState),
      DrainInv s → DrainInv (runSched env timeout s sched) := by
  intro sched
  induction sched with
  | nil => intro s h; exact h
  | cons i rest ih => intro s h; exact ih _ (drainInv_step env timeout s i h)

lemma errLogInv_runSched (env : HarnessEnv) (timeout : Option Nat) :
    ∀ (sched : List Nat) (s : ExecState),
      ErrLogInv s → ErrLogInv (runSched env timeout s sched) := by
  intro sched
  induction sched with
  | nil => intro s h; exact h
  | cons i rest ih => intro s h; exact ih _ (errLogInv_step env timeout s i h)

lemma originInv_runSched (env : HarnessEnv) (timeout : Option Nat) (D : List ConfigId) :
    ∀ (sched : List Nat) (s : ExecState),
      OriginInv D s → OriginInv D (runSched env timeout s sched) := by
  intro sched
  induction sched with
  | nil => intro s h; exact h
  | cons i rest ih => intro s h; exact ih _ (originInv_step env timeout D s i h)

lemma threads_length_step (env : HarnessEnv) (timeout : Option Nat) (s : ExecState)
    (i : Nat) : (stepThread env timeout s i).threads.length = s.threads.length := by
  rcases stepThread_char env timeout s i with
    ⟨ht, hs⟩ | ⟨r, ht, hs⟩ | ⟨ht, hr, hs⟩ | ⟨c, rest, ht, hr, hs⟩ | ⟨c, e, ht, hcb, hs⟩ |
    ⟨c, ht, hcb, hs⟩ | ⟨c, err, ht, hcl, hs⟩ | ⟨c, ev, e, ht, hcl, hcb, hs⟩ |
    ⟨c, ev, ht, hcl, hcb, hs⟩ <;>
    rw [hs] <;> simp [finishThread, List.length_set]

lemma threads_length_runSched (env : HarnessEnv) (timeout : Option Nat) :
    ∀ (sched : List Nat) (s : ExecState),
      (runSched env timeout s sched).threads.length = s.threads.length := by
  intro sched
  induction sched with
  | nil => intro s; rfl
  | cons i rest ih =>
      intro s
      rw [runSched]
      rw [ih, threads_length_step]

lemma trace_extends_step (env : HarnessEnv) (timeout : Option Nat) (s : ExecState)
    (i : Nat) : ∃ suffix, (stepThread env timeout s i).trace = s.trace ++ suffix := by
  rcases stepThread_char env timeout s i with
    ⟨ht, hs⟩ | ⟨r, ht, hs⟩ | ⟨ht, hr, hs⟩ | ⟨c, rest, ht, hr, hs⟩ | ⟨c, e, ht, hcb, hs⟩ |
    ⟨c, ht, hcb, hs⟩ | ⟨c, err, ht, hcl, hs⟩ | ⟨c, ev, e, ht, hcl, hcb, hs⟩ |
    ⟨c, ev, ht, hcl, hcb, hs⟩
  · exact ⟨[], by rw [hs]; simp⟩
  · exact ⟨[], by rw [hs]; simp⟩
  · exact ⟨[], by rw [hs]; simp [finishThread]⟩
  · exact ⟨[], by rw [hs]; simp⟩
  · exact ⟨[(some c, ExecutionEvent.Start c)], by rw [hs]; simp [finishThread]⟩
  · exact ⟨[(some c, ExecutionEvent.Start c)], by rw [hs]⟩
  · exact ⟨[], by rw [hs]; simp [finishThread]⟩
  · exact ⟨[(some c, ev)], by rw [hs]; simp [finishThread]⟩
  · exact ⟨[(some c, ev)], by rw [hs]⟩

lemma trace_extends_runSched (env : HarnessEnv) (timeout : Option Nat) :
    ∀ (sched : List Nat) (s : ExecState),
      ∃ suffix, (runSched env timeout s sched).trace = s.trace ++ suffix := by
  intro sched
  induction sched with
  | nil => intro s; exact ⟨[], by simp [runSched]⟩
  | cons i rest ih =>
      intro s
      obtain ⟨suf1, h1⟩ := trace_extends_step env timeout s i
      obtain ⟨suf2, h2⟩ := ih (stepThread env timeout s i)
      exact ⟨suf1 ++ suf2, by rw [runSched, h2, h1, List.append_assoc]⟩

lemma allDone_join_none_all (ts : List ThreadState) (hd : allDone ts)
    (hj : joinThreads ts = none) : ∀ t ∈ ts, t = ThreadState.done none := by
  induction ts with
  | nil => simp
  | cons t rest ih =>
      have hdt : isDone t = true ∧ rest.all isDone = true := by
        simpa [allDone, List.all_cons] using hd
      cases t with
      | done r =>
          cases r with
          | some e => simp [joinThreads, threadErr] at hj
          | none =>
              have hjr : joinThreads rest = none := by
                simpa [joinThreads, threadErr] using hj
              intro t' ht'
              rcases List.mem_cons.mp ht' with h | h
              · exact h
              · exact ih hdt.2 hjr t' h
      | idle => simp [isDone] at hdt
      | gotConfig c => simp [isDone] at hdt
      | running c => simp [isDone] at hdt

lemma errFree_of_allNone (s : ExecState)
    (h : ∀ t ∈ s.threads, t = ThreadState.done none) : errFree s := by
  intro i e hie
  have := h _ (mem_of_getElemOpt _ _ _ hie)
  cases this

lemma countP_zero_of_allNone (p : ThreadState → Bool)
    (hp : p (ThreadState.done none) = false) (ts : List ThreadState)
    (h : ∀ t ∈ ts, t = ThreadState.done none) : ts.countP p = 0 :=
  List.countP_eq_zero.mpr fun t ht => by rw [h t ht, hp]; simp

lemma joinThreads_eq_filterMap (ts : List ThreadState) :
    joinThreads ts = (ts.filterMap threadErr).head? := by
  induction ts with
  | nil => rfl
  | cons t rest ih =>
      cases he : threadErr t with
      | some e => simp [joinThreads, he, List.filterMap_cons]
      | none => simp [joinThreads, he, List.filterMap_cons, ih]

lemma join_some_exists (ts : List ThreadState) (e : ExecutionError)
    (h : joinThreads ts = some e) :
    ∃ j : Nat, ts[j]? = some (ThreadState.done (some e)) := by
  induction ts with
  | nil => cases h
  | cons t rest ih =>
      cases he : threadErr t with
      | some e' =>
          have hee : e' = e := by
            rw [joinThreads, he] at h
            exact Option.some.inj h
          subst hee
          cases t with
          | done r =>
              cases r with
              | some e2 =>
                  have : e2 = e' := by simpa [threadErr] using he
                  subst this
                  exact ⟨0, by simp⟩
              | none => simp [threadErr] at he
          | idle => simp [threadErr] at he
          | gotConfig c => simp [threadErr] at he
          | running c => simp [threadErr] at he
      | none =>
          rw [joinThreads, he] at h
          obtain ⟨j, hj⟩ := ih h
          exact ⟨j + 1, by simpa using hj⟩

end Harness

namespace Harness

lemma initState_no_done (cfgs : List ConfigId) (n : Nat)
    (tr : List (Option ConfigId × ExecutionEvent)) :
    DrainInv (initState cfgs n tr) := by
  rintro ⟨j, hj⟩
  exfalso
  have hm := mem_of_getElemOpt _ _ _ hj
  have := List.eq_of_mem_replicate hm
  cases this

lemma initState_errLog (cfgs : List ConfigId) (n : Nat)
    (tr : List (Option ConfigId × ExecutionEvent)) :
    ErrLogInv (initState cfgs n tr) := by
  intro j e hj
  exfalso
  have hm := mem_of_getElemOpt _ _ _ hj
  have := List.eq_of_mem_replicate hm
  cases this

lemma initState_schedInv (cfgs : List ConfigId) (n : Nat)
    (tr : List (Option ConfigId × ExecutionEvent))
    (htr : ∀ p ∈ tr, p.1 = (none : Option ConfigId)) :
    SchedInv cfgs (initState cfgs n tr) := by
  refine ⟨⟨0, rfl⟩, fun c' hc' => Or.inl ⟨hc', ?_, ?_, ?_⟩⟩
  · exact countP_replicate_false _ _ n rfl
  · exact countP_replicate_false _ _ n rfl
  · exact projTrace_of_none_tags c' tr htr

lemma run_liveness (env : HarnessEnv) (timeout : Option Nat) (cfgs : List ConfigId)
    (hnd : cfgs.Nodup) (n : Nat) (hn : 1 ≤ n)
    (tr0 : List (Option ConfigId × ExecutionEvent))
    (htr0 : ∀ p ∈ tr0, p.1 = (none : Option ConfigId)) (sched : List Nat)
    (hjoin : joinThreads (runSched env timeout (initState cfgs n tr0) sched).threads
      = none)
    (hdone : allDone (runSched env timeout (initState cfgs n tr0) sched).threads) :
    ∀ c ∈ cfgs, ∃ tEv, isTerminalEvent tEv = true ∧
      projTrace c (runSched env timeout (initState cfgs n tr0) sched).trace
        = [ExecutionEvent.Start c, tEv] := by
  intro c hc
  have hall : ∀ t ∈ (runSched env timeout (initState cfgs n tr0) sched).threads,
      t = ThreadState.done none :=
    allDone_join_none_all _ hdone hjoin
  have hef : errFree (runSched env timeout (initState cfgs n tr0) sched) :=
    errFree_of_allNone _ hall
  have hinv := schedInv_runSched env timeout cfgs hnd sched _
    (initState_schedInv cfgs n tr0 htr0) hef
  have hdrain := drainInv_runSched env timeout sched _ (initState_no_done cfgs n tr0)
  have hlen : (runSched env timeout (initState cfgs n tr0) sched).threads.length = n := by
    rw [threads_length_runSched]
    simp [initState]
  obtain ⟨t0, ht0⟩ : ∃ t0,
      (runSched env timeout (initState cfgs n tr0) sched).threads[0]? = some t0 := by
    cases hft : (runSched env timeout (initState cfgs n tr0) sched).threads with
    | nil => rw [hft] at hlen; simp at hlen; omega
    | cons a l => exact ⟨a, by simp⟩
  have ht0d : t0 = ThreadState.done none := hall _ (mem_of_getElemOpt _ _ _ ht0)
  have hrem : (runSched env timeout (initState cfgs n tr0) sched).remaining = [] := by
    apply hdrain
    exact ⟨0, by rw [ht0, ht0d]⟩
  have hgzero : ∀ c' : ConfigId,
      (runSched env timeout (initState cfgs n tr0) sched).threads.countP (holdsGot c')
        = 0 :=
    fun c' => countP_zero_of_allNone (holdsGot c') rfl _ hall
  have hrzero : ∀ c' : ConfigId,
      (runSched env timeout (initState cfgs n tr0) sched).threads.countP (holdsRun c')
        = 0 :=
    fun c' => countP_zero_of_allNone (holdsRun c') rfl _ hall
  rcases hinv.2 c hc with ⟨ha, _, _, _⟩ | ⟨_, hb, _, _⟩ | ⟨_, _, hc2, _⟩ | ⟨_, _, _, hd⟩
  · rw [hrem] at ha
    cases ha
  · rw [hgzero c] at hb
    cases hb
  · rw [hrzero c] at hc2
    cases hc2
  · exact hd

end Harness

namespace Harness

lemma initState_origin (D : List ConfigId) (n : Nat)
    (tr : List (Option ConfigId × ExecutionEvent))
    (htr : ∀ p ∈ tr, p.1 = (none : Option ConfigId)) :
    OriginInv D (initState D n tr) := by
  refine ⟨?_, fun c hc => hc, ?_⟩
  · intro c e hm
    have := htr _ hm
    simp at this
  · intro i c hic
    exfalso
    rcases hic with h | h <;>
      · have := List.eq_of_mem_replicate (mem_of_getElemOpt _ _ _ h)
        cases this

lemma runPhase_liveness (env : HarnessEnv) (timeout parallelism : Option Nat)
    (cfgs : List ConfigId) (hnd : cfgs.Nodup)
    (hn : 1 ≤ numThreads parallelism cfgs.length)
    (tr0 : List (Option ConfigId × ExecutionEvent))
    (htr0 : ∀ p ∈ tr0, p.1 = (none : Option ConfigId)) (sched : List Nat)
    (hjoin : (runPhase env cfgs timeout parallelism tr0 sched).1 = none)
    (hdone : allDone (runPhase env cfgs timeout parallelism tr0 sched).2.threads) :
    ∀ c ∈ cfgs, ∃ tEv, isTerminalEvent tEv = true ∧
      projTrace c (runPhase env cfgs timeout parallelism tr0 sched).2.trace
        = [ExecutionEvent.Start c, tEv] :=
  run_liveness env timeout cfgs hnd (numThreads parallelism cfgs.length) hn tr0 htr0
    sched hjoin hdone

end Harness

/-- C3 (amended): whenever `execute` returns `Ok`, then — provided the
effective worker pool is nonempty, that is, the parallelism bound (when
given) is at least 1 — for every requested `ConfigId` (the effective,
duplicate-free config set) the event sink received exactly one `Start` event
and exactly one terminal event (Success, Failure or Timeout) for the
processing of that `ConfigId`, with the `Start` delivered before the
terminal event; this holds for every config set, optional timeout, optional
nonzero parallelism bound and schedule under which the threads complete.
Contrary to the original claim, a parallelism bound of zero spawns no
threads and `execute` returns `Ok` with no events at all. -/
theorem execute_liveness_c3 (env : Harness.HarnessEnv) (configs : List ConfigId)
    (timeout parallelism : Option Nat) (sched : List Nat)
    (hnd : (Harness.effectiveConfigs env configs).Nodup)
    (hn : 1 ≤ Harness.numThreads parallelism (Harness.effectiveConfigs env configs).length)
    (hres : (Harness.execute env configs timeout parallelism sched).1 = none)
    (hdone : Harness.allDone
      (Harness.execute env configs timeout parallelism sched).2.threads) :
    ∀ c ∈ Harness.effectiveConfigs env configs,
      ∃ t, Harness.isTerminalEvent t = true ∧
        Harness.projTrace c
          (Harness.execute env configs timeout parallelism sched).2.trace
          = [Harness.ExecutionEvent.Start c, t] := by
  by_cases hcfg : configs = []
  · have heff : Harness.effectiveConfigs env configs = env.defaults := by
      simp [Harness.effectiveConfigs, hcfg]
    by_cases hdef : env.defaults = []
    · exfalso
      rw [hcfg] at hres
      simp [Harness.execute, hdef] at hres
    · cases hcb : env.cb []
        (Harness.ExecutionEvent.UsingDefaultConfigs env.defaults) with
      | some e =>
          exfalso
          rw [hcfg] at hres
          simp [Harness.execute, hdef, hcb] at hres
      | none =>
          have hexec : Harness.execute env configs timeout parallelism sched
              = Harness.runPhase env env.defaults timeout parallelism
                  [((none : Option ConfigId),
                    Harness.ExecutionEvent.UsingDefaultConfigs env.defaults)] sched := by
            rw [hcfg]
            simp [Harness.execute, hdef, hcb]
          rw [hexec] at hres hdone ⊢
          rw [heff] at hnd hn ⊢
          exact Harness.runPhase_liveness env timeout parallelism env.defaults hnd hn _
            (by
              intro p hp
              simp only [List.mem_singleton] at hp
              rw [hp])
            sched hres hdone
  · have heff : Harness.effectiveConfigs env configs = configs := by
      simp [Harness.effectiveConfigs, hcfg]
    have hexec : Harness.execute env configs timeout parallelism sched
        = Harness.runPhase env configs timeout parallelism [] sched := by
      simp [Harness.execute, hcfg]
    rw [hexec] at hres hdone ⊢
    rw [heff] at hnd hn ⊢
    exact Harness.runPhase_liveness env timeout parallelism configs hnd hn []
      (by intro p hp; cases hp) sched hres hdone

/-- Counterexample for C3 as stated: with a parallelism bound of 0 and one
requested config, `execute` spawns no worker threads, all (zero) threads
have finished, the result is `Ok` — and the sink received no events at all,
in particular no `Start` event for the requested config. -/
theorem execute_liveness_c3_counterexample :
    (Harness.execute
        ⟨[], fun _ => Harness.WorkerRun.runs 0 0 [] [], fun _ => some [],
          fun _ _ => none⟩
        [⟨"c1"⟩] none (some 0) []).1 = none ∧
    Harness.allDone (Harness.execute
        ⟨[], fun _ => Harness.WorkerRun.runs 0 0 [] [], fun _ => some [],
          fun _ _ => none⟩
        [⟨"c1"⟩] none (some 0) []).2.threads ∧
    (Harness.execute
        ⟨[], fun _ => Harness.WorkerRun.runs 0 0 [] [], fun _ => some [],
          fun _ _ => none⟩
        [⟨"c1"⟩] none (some 0) []).2.trace = [] :=
  ⟨rfl, by decide, rfl⟩

/-- Witness for C3 (amended): a complete single-thread run over one config
delivers exactly `Start` followed by one terminal event for it. -/
theorem execute_liveness_c3_witness :
    ∃ t, Harness.isTerminalEvent t = true ∧
      Harness.projTrace ⟨"c1"⟩
        (Harness.execute
          ⟨[], fun _ => Harness.WorkerRun.runs 0 0 [] [], fun _ => some [],
            fun _ _ => none⟩
          [⟨"c1"⟩] none none [0, 0, 0, 0]).2.trace
        = [Harness.ExecutionEvent.Start ⟨"c1"⟩, t] :=
  execute_liveness_c3
    ⟨[], fun _ => Harness.WorkerRun.runs 0 0 [] [], fun _ => some [],
      fun _ _ => none⟩
    [⟨"c1"⟩] none none [0, 0, 0, 0] (by decide) (by decide) (by decide) (by decide)
    ⟨"c1"⟩ (by decide)

/-- C5 (amended): when `execute`'s worker threads have all finished, only
the thread that observed a callback error stopped pulling further ConfigIds
— if any thread finished by exhausting the iterator, every requested config
was pulled (the iterator is empty) — and the error returned to the caller is
that of the earliest-spawned failing thread (the first error in thread join
order), with the errors of later-joined threads discarded; every returned
error was one of the chronologically observed errors. Contrary to the
original claim, the returned error is not necessarily the first error
observed in time. -/
theorem execute_error_policy_c5 (env : Harness.HarnessEnv) (configs : List ConfigId)
    (timeout parallelism : Option Nat) (sched : List Nat) (hne : configs ≠ [])
    (hdone : Harness.allDone
      (Harness.execute env configs timeout parallelism sched).2.threads) :
    ((Harness.execute env configs timeout parallelism sched).1
      = ((Harness.execute env configs timeout parallelism sched).2.threads.filterMap
          Harness.threadErr).head?) ∧
    ((∃ j : Nat, (Harness.execute env configs timeout parallelism sched).2.threads[j]?
        = some (Harness.ThreadState.done none)) →
      (Harness.execute env configs timeout parallelism sched).2.remaining = []) ∧
    (∀ e, (Harness.execute env configs timeout parallelism sched).1 = some e →
      e ∈ (Harness.execute env configs timeout parallelism sched).2.errors) := by
  have hexec : Harness.execute env configs timeout parallelism sched
      = Harness.runPhase env configs timeout parallelism [] sched := by
    simp [Harness.execute, hne]
  rw [hexec]
  refine ⟨Harness.joinThreads_eq_filterMap _, ?_, ?_⟩
  · intro hex
    exact Harness.drainInv_runSched env timeout sched _
      (Harness.initState_no_done configs
        (Harness.numThreads parallelism configs.length) []) hex
  · intro e he
    obtain ⟨j, hj⟩ := Harness.join_some_exists _ e he
    exact Harness.errLogInv_runSched env timeout sched _
      (Harness.initState_errLog configs
        (Harness.numThreads parallelism configs.length) []) j e hj

/-- Counterexample for C5 as stated: two threads, each failing on its
`Start` callback; the schedule makes the second-spawned thread fail first
(its error `Callback 1` is observed first), yet the caller receives
`Callback 2`, the error of the first-spawned thread — not the first error
observed. -/
theorem execute_error_policy_c5_counterexample :
    (Harness.execute
        ⟨[], fun _ => Harness.WorkerRun.runs 0 0 [] [], fun _ => some [],
          fun _ ev => match ev with
            | Harness.ExecutionEvent.Start c =>
                some (if c = ⟨"c1"⟩ then Harness.ExecutionError.Callback 1
                  else Harness.ExecutionError.Callback 2)
            | _ => none⟩
        [⟨"c1"⟩, ⟨"c2"⟩] none none [1, 1, 0, 0]).1
      = some (Harness.ExecutionError.Callback 2) ∧
    (Harness.execute
        ⟨[], fun _ => Harness.WorkerRun.runs 0 0 [] [], fun _ => some [],
          fun _ ev => match ev with
            | Harness.ExecutionEvent.Start c =>
                some (if c = ⟨"c1"⟩ then Harness.ExecutionError.Callback 1
                  else Harness.ExecutionError.Callback 2)
            | _ => none⟩
        [⟨"c1"⟩, ⟨"c2"⟩] none none [1, 1, 0, 0]).2.errors
      = [Harness.ExecutionError.Callback 1, Harness.ExecutionError.Callback 2] ∧
    Harness.allDone (Harness.execute
        ⟨[], fun _ => Harness.WorkerRun.runs 0 0 [] [], fun _ => some [],
          fun _ ev => match ev with
            | Harness.ExecutionEvent.Start c =>
                some (if c = ⟨"c1"⟩ then Harness.ExecutionError.Callback 1
                  else Harness.ExecutionError.Callback 2)
            | _ => none⟩
        [⟨"c1"⟩, ⟨"c2"⟩] none none [1, 1, 0, 0]).2.threads ∧
    Harness.ExecutionError.Callback 2 ≠ Harness.ExecutionError.Callback 1 :=
  ⟨by decide, by decide, by decide, by decide⟩

/-- Witness for C5 (amended): in the two-failing-threads run, the returned
error is indeed among the observed errors. -/
theorem execute_error_policy_c5_witness :
    Harness.ExecutionError.Callback 2 ∈ (Harness.execute
        ⟨[], fun _ => Harness.WorkerRun.runs 0 0 [] [], fun _ => some [],
          fun _ ev => match ev with
            | Harness.ExecutionEvent.Start c =>
                some (if c = ⟨"c1"⟩ then Harness.ExecutionError.Callback 1
                  else Harness.ExecutionError.Callback 2)
            | _ => none⟩
        [⟨"c1"⟩, ⟨"c2"⟩] none none [1, 1, 0, 0]).2.errors :=
  (execute_error_policy_c5
      ⟨[], fun _ => Harness.WorkerRun.runs 0 0 [] [], fun _ => some [],
        fun _ ev => match ev with
          | Harness.ExecutionEvent.Start c =>
              some (if c = ⟨"c1"⟩ then Harness.ExecutionError.Callback 1
                else Harness.ExecutionError.Callback 2)
          | _ => none⟩
      [⟨"c1"⟩, ⟨"c2"⟩] none none [1, 1, 0, 0] (by decide) (by decide)).2.2
    (Harness.ExecutionError.Callback 2) (by decide)

/-- C9: when `execute` is called with an empty ConfigId set it substitutes
the platform default configuration list, delivering a `UsingDefaultConfigs`
event carrying that list before anything else, and every `Start`-bearing
trace entry concerns a default config; if the default list is also empty it
returns the `NoDefaultConfigs` error before spawning any worker or
delivering any event. -/
theorem execute_default_configs_c9 (env : Harness.HarnessEnv)
    (timeout parallelism : Option Nat) (sched : List Nat) :
    (env.defaults = [] →
      (Harness.execute env [] timeout parallelism sched).1
        = some Harness.ExecutionError.NoDefaultConfigs ∧
      (Harness.execute env [] timeout parallelism sched).2.trace = []) ∧
    (env.defaults ≠ [] →
      (Harness.execute env [] timeout parallelism sched).2.trace.head?
        = some ((none : Option ConfigId),
            Harness.ExecutionEvent.UsingDefaultConfigs env.defaults) ∧
      ∀ c e, ((some c, e) : Option ConfigId × Harness.ExecutionEvent)
          ∈ (Harness.execute env [] timeout parallelism sched).2.trace →
        c ∈ env.defaults) := by
  constructor
  · intro hdef
    constructor
    · simp [Harness.execute, hdef]
    · simp [Harness.execute, hdef, Harness.initState]
  · intro hdef
    have htr0 : ∀ p ∈ [((none : Option ConfigId),
        Harness.ExecutionEvent.UsingDefaultConfigs env.defaults)],
        p.1 = (none : Option ConfigId) := by
      intro p hp
      simp only [List.mem_singleton] at hp
      rw [hp]
    cases hcb : env.cb []
        (Harness.ExecutionEvent.UsingDefaultConfigs env.defaults) with
    | some e =>
        have hexec : Harness.execute env [] timeout parallelism sched
            = (some e, Harness.initState env.defaults
                (Harness.numThreads parallelism env.defaults.length)
                [(none, Harness.ExecutionEvent.UsingDefaultConfigs env.defaults)]) := by
          simp [Harness.execute, hdef, hcb]
        rw [hexec]
        constructor
        · rfl
        · intro c e' hm
          simp [Harness.initState] at hm
    | none =>
        have hexec : Harness.execute env [] timeout parallelism sched
            = Harness.runPhase env env.defaults timeout parallelism
                [((none : Option ConfigId),
                  Harness.ExecutionEvent.UsingDefaultConfigs env.defaults)] sched := by
          simp [Harness.execute, hdef, hcb]
        rw [hexec]
        constructor
        · obtain ⟨suffix, hsuf⟩ := Harness.trace_extends_runSched env timeout sched
            (Harness.initState env.defaults
              (Harness.numThreads parallelism env.defaults.length)
              [(none, Harness.ExecutionEvent.UsingDefaultConfigs env.defaults)])
          show (Harness.runSched env timeout
              (Harness.initState env.defaults
                (Harness.numThreads parallelism env.defaults.length)
                [(none, Harness.ExecutionEvent.UsingDefaultConfigs env.defaults)])
              sched).trace.head? = _
          rw [hsuf]
          rfl
        · have horig := Harness.originInv_runSched env timeout env.defaults sched _
            (Harness.initState_origin env.defaults
              (Harness.numThreads parallelism env.defaults.length)
              [(none, Harness.ExecutionEvent.UsingDefaultConfigs env.defaults)] htr0)
          intro c e' hm
          exact horig.1 c e' hm

/-- Witness for C9: with empty defaults the call fails with
`NoDefaultConfigs` and an empty trace; with one default config the first
delivered event is `UsingDefaultConfigs` with that list. -/
theorem execute_default_configs_c9_witness :
    (Harness.execute
        ⟨[], fun _ => Harness.WorkerRun.runs 0 0 [] [], fun _ => some [],
          fun _ _ => none⟩ [] none none []).1
      = some Harness.ExecutionError.NoDefaultConfigs ∧
    (Harness.execute
        ⟨[⟨"d1"⟩], fun _ => Harness.WorkerRun.runs 0 0 [] [], fun _ => some [],
          fun _ _ => none⟩ [] none none [0, 0, 0, 0]).2.trace.head?
      = some ((none : Option ConfigId),
          Harness.ExecutionEvent.UsingDefaultConfigs [⟨"d1"⟩]) :=
  ⟨((execute_default_configs_c9
      ⟨[], fun _ => Harness.WorkerRun.runs 0 0 [] [], fun _ => some [],
        fun _ _ => none⟩ none none []).1 rfl).1,
   ((execute_default_configs_c9
      ⟨[⟨"d1"⟩], fun _ => Harness.WorkerRun.runs 0 0 [] [], fun _ => some [],
        fun _ _ => none⟩ none none [0, 0, 0, 0]).2 (by decide)).1⟩
